import Mathlib

/-!
Verification of the inverter-elimination pass (`dag_inv_eliminator.py`) of the
blif-translator.  The pass itself (`InvEliminator`) is translated from the
Python source; the DAG container it calls (`dag` object: gates, edges, ports,
graph-edit primitives) is not part of the available source and is modelled
from the specification's "DAG Container" contract.
-/

set_option maxHeartbeats 1000000

/-- A logic gate: ordered input wire names, ordered output wire names, a
function label (e.g. `inv1`), and the set of input pins whose signal is
consumed inverted (the invert-on-input attribute). -/
structure Gate where
  inputs : List String
  outputs : List String
  gate_func : String
  inv_flags : List String
  deriving DecidableEq, Repr

/-- A driver→load connection carrying a named wire. -/
structure Edge where
  src : Nat
  dst : Nat
  wire : String
  deriving DecidableEq, Repr

/-- Modelled from the spec: the DAG Container owning all gates (an
association list keyed by gate id), the fanin/fanout adjacency (edges), and
the port classification of boundary wires. -/
structure Dag where
  gates : List (Nat × Gate)
  edges : List Edge
  in_ports : List String
  out_ports : List String
  deriving DecidableEq, Repr

/-- Modelled from the spec: the Container-level error taxonomy
(DuplicateWireError, DanglingGateError, EdgeNotFoundError,
GateStillConnectedError) plus the StructuralIntegrityError raised by the
pass's driver-count assertion. -/
inductive DagError where
  | duplicateWire
  | danglingGate
  | edgeNotFound
  | gateStillConnected
  | structuralIntegrity
  deriving DecidableEq, Repr

namespace Dag

/-- Modelled from the spec: gate lookup (`dag.graph.nodes[gate_id]`). -/
def getGate (d : Dag) (id : Nat) : Option Gate :=
  List.lookup id d.gates

/-- Modelled from the spec: input-port classification of a wire. -/
def is_in_port (d : Dag) (w : String) : Bool :=
  decide (w ∈ d.in_ports)

/-- Modelled from the spec: output-port classification of a wire. -/
def is_out_port (d : Dag) (w : String) : Bool :=
  decide (w ∈ d.out_ports)

/-- Modelled from the spec: the gates driving a wire, derived from the
fanin/fanout adjacency, each gate listed once. -/
def get_wire_fanin_gate_ids (d : Dag) (w : String) : List Nat :=
  ((d.edges.filter (fun e => decide (e.wire = w))).map Edge.src).dedup

/-- Modelled from the spec: the gates consuming a wire, each listed once. -/
def get_wire_fanout_gate_ids (d : Dag) (w : String) : List Nat :=
  ((d.edges.filter (fun e => decide (e.wire = w))).map Edge.dst).dedup

/-- All wire names present in the graph: gate pins, edge labels and ports. -/
def wire_names (d : Dag) : List String :=
  (d.gates.flatMap (fun p => p.2.inputs ++ p.2.outputs))
    ++ d.edges.map Edge.wire ++ d.in_ports ++ d.out_ports

/-- Modelled from the spec: disconnect the specific driver→load edge;
`EdgeNotFoundError` if no such edge exists. -/
def remove_wire (d : Dag) (u v : Nat) : Except DagError Dag :=
  if ∃ e ∈ d.edges, e.src = u ∧ e.dst = v then
    .ok { d with edges := d.edges.filter (fun e => decide (¬(e.src = u ∧ e.dst = v))) }
  else .error .edgeNotFound

/-- Modelled from the spec: delete a gate that has no remaining wire
connections; `GateStillConnectedError` otherwise. -/
def remove_gate (d : Dag) (id : Nat) : Except DagError Dag :=
  if ∃ e ∈ d.edges, e.src = id ∨ e.dst = id then .error .gateStillConnected
  else if (d.getGate id).isSome then
    .ok { d with gates := d.gates.filter (fun p => decide (p.1 ≠ id)) }
  else .error .danglingGate

/-- Modelled from the spec: connect a driver→load edge under a wire name;
`DanglingGateError` if either gate id does not exist, `DuplicateWireError`
if the name already names a wire with a different driver. -/
def add_wire (d : Dag) (name : String) (u v : Nat) : Except DagError Dag :=
  if ¬((d.getGate u).isSome ∧ (d.getGate v).isSome) then .error .danglingGate
  else if (∃ e ∈ d.edges, e.wire = name ∧ e.src ≠ u)
      ∨ (∃ p ∈ d.gates, name ∈ p.2.outputs ∧ p.1 ≠ u) then .error .duplicateWire
  else .ok { d with edges := ⟨u, v, name⟩ :: d.edges }

/-- Apply a function to the gate record stored under an id. -/
def modifyGate (d : Dag) (id : Nat) (f : Gate → Gate) : Dag :=
  { d with gates := d.gates.map (fun p => if p.1 = id then (p.1, f p.2) else p) }

/-- Rename occurrences of a wire name in a pin list. -/
def renameIn (oldw neww : String) (l : List String) : List String :=
  l.map (fun w => if w = oldw then neww else w)

/-- Modelled from the spec: rename a gate's output pin, preserving all
downstream load relationships under the new name. -/
def replace_output_wire (d : Dag) (id : Nat) (oldw neww : String) : Dag :=
  let renameEdge : Edge → Edge :=
    fun e => if e.src = id ∧ e.wire = oldw then { e with wire := neww } else e
  let d1 := d.modifyGate id (fun g => { g with outputs := renameIn oldw neww g.outputs })
  { d1 with edges := d1.edges.map renameEdge }

/-- Modelled from the spec: rewire one input pin of a gate from one wire
name to another, preserving pin position. -/
def replace_input_wire (d : Dag) (id : Nat) (oldw neww : String) : Dag :=
  d.modifyGate id (fun g => { g with inputs := renameIn oldw neww g.inputs })

/-- Modelled from the spec: set the invert-on-input attribute of a pin
(idempotent). -/
def invert_input_wire (d : Dag) (id : Nat) (w : String) : Dag :=
  d.modifyGate id (fun g =>
    { g with inv_flags := if w ∈ g.inv_flags then g.inv_flags else w :: g.inv_flags })

end Dag

/-- Concatenation of a list of strings (used by the uniquification
fallback, which is never reached when some numbered candidate is free). -/
def joinAll : List String → String
  | [] => ""
  | s :: rest => s ++ joinAll rest

/-- Try numbered candidates `base_k` in order, returning the first one not
present in `names`; the fallback candidate is longer than every name. -/
def pickFresh (names : List String) (base : String) : List Nat → String
  | [] => base ++ "_" ++ joinAll names ++ "2"
  | k :: ks =>
    if (base ++ "_" ++ toString k) ∈ names then pickFresh names base ks
    else base ++ "_" ++ toString k

/-- Modelled from the spec: `uniquify_wire_name` returns `base` if unused,
else a deterministically suffixed variant (`base_2`, `base_3`, …) that
never collides with any existing wire name.  (Source spelling kept.) -/
def Dag.uniqufy_wire_name (d : Dag) (base : String) : String :=
  let names := d.wire_names
  if base ∈ names then
    pickFresh names base ((List.range (names.length + 1)).map (fun k => k + 2))
  else base

/-- Modelled from the spec: strip a uniquification suffix `_<digits>`,
recovering the human-meaningful root of a wire name. -/
def Dag.get_wire_base_name (_d : Dag) (w : String) : String :=
  let rev := w.toList.reverse
  let digs := rev.takeWhile (fun c => c.isDigit)
  match digs, rev.drop digs.length with
  | _ :: _, '_' :: rest => String.mk rest.reverse
  | _, _ => w

/-- One step of Kahn's algorithm: the first remaining gate with no incoming
edge from a remaining gate. -/
def pickSource (edges : List Edge) (rem : List Nat) : Option Nat :=
  rem.find? (fun id => decide (¬ ∃ e ∈ edges, e.dst = id ∧ e.src ∈ rem))

/-- Fuel-driven Kahn traversal; leftover gates (only possible on a cyclic
graph) are appended so that every gate id is produced exactly once. -/
def topoAux (edges : List Edge) : Nat → List Nat → List Nat
  | 0, rem => rem
  | fuel + 1, rem =>
    match pickSource edges rem with
    | none => rem
    | some id => id :: topoAux edges fuel (rem.erase id)

/-- Modelled from the spec: a deterministic topological ordering of all
gate ids, materialized once up front. -/
def Dag.get_topo_sorted_gate_id_list (d : Dag) : List Nat :=
  topoAux d.edges d.gates.length (d.gates.map (fun p => p.1))

namespace InvEliminator

/-- `InvEliminator.is_target_gate`: a gate is a target iff its function
label is `inv1`. -/
def is_target_gate (dag : Dag) (gate_id : Nat) : Bool :=
  match dag.getGate gate_id with
  | some gate => decide (gate.gate_func = "inv1")
  | none => false

/-- The loop `for load_gate_id in load_gate_ids: dag.remove_wire(...)`
disconnecting the inverter from each of its loads. -/
def removeLoadWires (inv_gate_id : Nat) : Dag → List Nat → Except (DagError × Dag) Dag
  | dag, [] => .ok dag
  | dag, l :: ls =>
    match dag.remove_wire inv_gate_id l with
    | .error e => .error (e, dag)
    | .ok d => removeLoadWires inv_gate_id d ls

/-- The reconnection loop over the fanout gates: standard case rewires the
load onto the inverter's input wire; conflict case (load already consumes
the direct wire) renames the inverted wire to a fresh `_inv` name first. -/
def xformLoads (debug_level : Nat) (driver_gate_id : Nat) (in_wire out_wire : String) :
    Dag → List Nat → Except (DagError × Dag) (Dag × List String)
  | _dag, [] => .ok (_dag, [])
  | dag, load_gate_id :: rest =>
    match dag.getGate load_gate_id with
    | none => .error (.danglingGate, dag)
    | some load_gate =>
      if in_wire ∈ load_gate.inputs then
        let msg := if debug_level ≥ 2 then
          [s!"DAG-Transform: Both direct and inverted versions of {in_wire} are connected to gate {load_gate_id}. Renaming inverted wire."]
          else []
        let inverted_wire_name :=
          dag.uniqufy_wire_name (dag.get_wire_base_name out_wire ++ "_inv")
        let d1 := dag.replace_output_wire driver_gate_id out_wire inverted_wire_name
        match d1.add_wire inverted_wire_name driver_gate_id load_gate_id with
        | .error e => .error (e, d1)
        | .ok d2 =>
          let d3 := d2.replace_input_wire load_gate_id out_wire inverted_wire_name
          let d4 := d3.invert_input_wire load_gate_id inverted_wire_name
          match xformLoads debug_level driver_gate_id in_wire out_wire d4 rest with
          | .error e => .error e
          | .ok (d5, log) => .ok (d5, msg ++ log)
      else
        match dag.add_wire in_wire driver_gate_id load_gate_id with
        | .error e => .error (e, dag)
        | .ok d2 =>
          let d3 := d2.replace_input_wire load_gate_id out_wire in_wire
          let d4 := d3.invert_input_wire load_gate_id in_wire
          match xformLoads debug_level driver_gate_id in_wire out_wire d4 rest with
          | .error e => .error e
          | .ok (d5, log) => .ok (d5, log)

/-- `InvEliminator.run_xform_inv_elimination`: eliminate one inverter gate
and invert the fanout gates' inputs.  Returns the rewritten DAG, the count
contribution (0 on the port skip, 1 on elimination) and the debug trace;
a raised error carries the DAG state at the moment of the raise. -/
def run_xform_inv_elimination (debug_level : Nat) (dag : Dag) (inv_gate_id : Nat) :
    Except (DagError × Dag) (Dag × Nat × List String) :=
  match dag.getGate inv_gate_id with
  | none => .error (.danglingGate, dag)
  | some inv_gate =>
    match inv_gate.inputs, inv_gate.outputs with
    | in_wire :: _, out_wire :: _ =>
      if dag.is_in_port in_wire || dag.is_out_port in_wire || dag.is_out_port out_wire then
        .ok (dag, 0, [])
      else
        let log0 := if debug_level ≥ 2 then
          [s!"DAG-Transform: Remove INV gate: {inv_gate_id}"] else []
        let driver_gate_ids := dag.get_wire_fanin_gate_ids in_wire
        if driver_gate_ids.length = 1 then
          let driver_gate_id := driver_gate_ids.headD 0
          let load_gate_ids := dag.get_wire_fanout_gate_ids out_wire
          match dag.remove_wire driver_gate_id inv_gate_id with
          | .error e => .error (e, dag)
          | .ok d1 =>
            match removeLoadWires inv_gate_id d1 load_gate_ids with
            | .error e => .error e
            | .ok d2 =>
              match d2.remove_gate inv_gate_id with
              | .error e => .error (e, d2)
              | .ok d3 =>
                match xformLoads debug_level driver_gate_id in_wire out_wire d3 load_gate_ids with
                | .error e => .error e
                | .ok (d4, log1) => .ok (d4, 1, log0 ++ log1)
        else .error (.structuralIntegrity, dag)
    | _, _ => .error (.danglingGate, dag)

/-- The traversal inside `InvEliminator.apply`: fold the per-gate rewrite
over the snapshot of topologically sorted gate ids, accumulating the
eliminated count and the debug trace. -/
def applyLoop (debug_level : Nat) :
    Dag → List Nat → Nat → List String → Except (DagError × Dag) (Dag × Nat × List String)
  | dag, [], total, log => .ok (dag, total, log)
  | dag, id :: ids, total, log =>
    if is_target_gate dag id then
      match run_xform_inv_elimination debug_level dag id with
      | .error e => .error e
      | .ok (d, k, lg) => applyLoop debug_level d ids (total + k) (log ++ lg)
    else applyLoop debug_level dag ids total log

/-- `InvEliminator.apply`: one full pass.  The Python method accumulates
`total_inv`, prints a summary at debug level ≥ 1, and falls off the end of
the function, so the returned value component is `none`. -/
def apply (debug_level : Nat) (dag : Dag) :
    Except (DagError × Dag) (Dag × Option Nat × List String) :=
  match applyLoop debug_level dag dag.get_topo_sorted_gate_id_list 0 [] with
  | .error e => .error e
  | .ok (d, total, log) =>
    .ok (d, none,
      log ++ (if debug_level ≥ 1 then
        [s!"DAG-Transform Summary: Total {total} inverter gates eliminated"] else []))

end InvEliminator

/-! ## Circuit semantics

Boolean evaluation of a wire: input ports take the assignment's value; any
other wire takes the value computed by its driving gate (found through the
output pins or the fanin adjacency), whose input pins are read with their
invert-on-input attribute applied.  Fuel bounds the recursion depth. -/

/-- The driving gate of a wire: the gate holding it as an output pin or
sourcing an edge labelled with it. -/
def driverOf (d : Dag) (w : String) : Option (Nat × Gate) :=
  d.gates.find? (fun p => decide (w ∈ p.2.outputs ∨ ∃ e ∈ d.edges, e.src = p.1 ∧ e.wire = w))

/-- Collect a list of optional values, failing if any is missing. -/
def allSome : List (Option Bool) → Option (List Bool)
  | [] => some []
  | o :: rest =>
    match o, allSome rest with
    | some v, some vs => some (v :: vs)
    | _, _ => none

/-- One evaluation layer: given the values of wires at the previous depth
(`ih`), the value of a wire: input ports from `σ`, other wires from their
driving gate, reading each input pin with its invert-on-input attribute. -/
def evalStep (I : String → List Bool → Bool) (d : Dag) (σ : String → Bool)
    (ih : String → Option Bool) (w : String) : Option Bool :=
  if d.is_in_port w then some (σ w)
  else
    match driverOf d w with
    | none => none
    | some (_, g) =>
      (allSome (g.inputs.map
        (fun p => (ih p).map (fun v => xor v (decide (p ∈ g.inv_flags)))))).map
        (I g.gate_func)

/-- Value of a wire under interpretation `I` of function labels and input
assignment `σ`; fuel bounds the recursion depth. -/
def evalWire (I : String → List Bool → Bool) (d : Dag) (σ : String → Bool) :
    Nat → String → Option Bool
  | 0 => fun _ => none
  | fuel + 1 => evalStep I d σ (evalWire I d σ fuel)

/-- A standard interpretation of the function labels used in the examples:
`inv1` is a single-input inverter, `buf1` a single-input buffer. -/
def stdInterp : String → List Bool → Bool
  | "inv1", vs => !(vs.headD true)
  | "buf1", vs => vs.headD false
  | _, _ => false

/-! ## Result projections -/

/-- The DAG produced by a successful `apply`. -/
def okDag : Except (DagError × Dag) (Dag × Option Nat × List String) → Option Dag
  | .ok (d, _, _) => some d
  | .error _ => none

/-- The value returned by `apply` (what the Python caller receives). -/
def retValue : Except (DagError × Dag) (Dag × Option Nat × List String) → Option (Option Nat)
  | .ok (_, v, _) => some v
  | .error _ => none

/-- The eliminated-count accumulator of the pass traversal. -/
def passTotal : Except (DagError × Dag) (Dag × Nat × List String) → Option Nat
  | .ok (_, t, _) => some t
  | .error _ => none

/-- DAG and count of a per-gate rewrite result, the debug trace dropped. -/
def xformResult : Except (DagError × Dag) (Dag × Nat × List String) → Option (Dag × Nat)
  | .ok (d, k, _) => some (d, k)
  | .error _ => none

/-! ## Concrete circuits -/

/-- A chain of two inverters between two buffers:
`x → D(buf1) → a → N1(inv1) → b → N2(inv1) → c → L(buf1) → y`. -/
def chainDag : Dag :=
  { gates := [(0, ⟨["x"], ["a"], "buf1", []⟩),
              (1, ⟨["a"], ["b"], "inv1", []⟩),
              (2, ⟨["b"], ["c"], "inv1", []⟩),
              (3, ⟨["c"], ["y"], "buf1", []⟩)],
    edges := [⟨0, 1, "a"⟩, ⟨1, 2, "b"⟩, ⟨2, 3, "c"⟩],
    in_ports := ["x"], out_ports := ["y"] }

/-- Two parallel inverters from the same driver into one consumer:
`D(buf1)` drives `a` into `N1(inv1, a→b)` and `N2(inv1, a→c)`;
`L(buf1)` consumes `[b, c]`. -/
def parDag : Dag :=
  { gates := [(0, ⟨["x"], ["a"], "buf1", []⟩),
              (1, ⟨["a"], ["b"], "inv1", []⟩),
              (2, ⟨["a"], ["c"], "inv1", []⟩),
              (3, ⟨["b", "c"], ["y"], "buf1", []⟩)],
    edges := [⟨0, 1, "a"⟩, ⟨0, 2, "a"⟩, ⟨1, 3, "b"⟩, ⟨2, 3, "c"⟩],
    in_ports := ["x"], out_ports := ["y"] }

/-- One eliminable inverter: `x → D(buf1) → a → N(inv1) → b → L(buf1) → y`. -/
def oneInvDag : Dag :=
  { gates := [(0, ⟨["x"], ["a"], "buf1", []⟩),
              (1, ⟨["a"], ["b"], "inv1", []⟩),
              (2, ⟨["b"], ["y"], "buf1", []⟩)],
    edges := [⟨0, 1, "a"⟩, ⟨1, 2, "b"⟩],
    in_ports := ["x"], out_ports := ["y"] }

/-- An inverter whose output wire `p` is a declared input port. -/
def outIsInPortDag : Dag :=
  { gates := [(0, ⟨["x"], ["w"], "buf1", []⟩),
              (1, ⟨["w"], ["p"], "inv1", []⟩)],
    edges := [⟨0, 1, "w"⟩],
    in_ports := ["x", "p"], out_ports := [] }

/-- A malformed netlist: wire `i` is driven by two gates and feeds an
inverter. -/
def twoDriverDag : Dag :=
  { gates := [(0, ⟨[], ["i"], "buf1", []⟩),
              (1, ⟨[], ["i"], "buf1", []⟩),
              (2, ⟨["i"], ["o"], "inv1", []⟩)],
    edges := [⟨0, 2, "i"⟩, ⟨1, 2, "i"⟩],
    in_ports := [], out_ports := [] }

/-- The constant-true input assignment. -/
def sigTrue : String → Bool := fun _ => true

/-! ## C1: functional equivalence across the pass -/

/-- C1: the pass does not preserve the boolean function on a chain of two
inverters.  In `chainDag` the output `y` equals the input `x` (two
inversions cancel), but after the pass the consumer reads the driver
inverted: with `x = true`, `y` is `true` before and `false` after. -/
theorem C1_inverter_chain_changes_function :
    evalWire stdInterp chainDag sigTrue 10 "y" = some true ∧
    (okDag (InvEliminator.apply 0 chainDag)).map
      (fun d => evalWire stdInterp d sigTrue 10 "y") = some (some false) := by
  constructor
  · rfl
  · rfl

/-! ## C2: the value returned by `apply` -/

/-- C2 counterexample: on `oneInvDag` the pass eliminates one inverter
(the internal accumulator reaches 1), yet `apply` returns `None` — the
Python method has no return statement, so the eliminated count never
reaches the caller. -/
theorem C2_apply_returns_none_cx :
    retValue (InvEliminator.apply 1 oneInvDag) = some none ∧
    passTotal (InvEliminator.applyLoop 1 oneInvDag
      oneInvDag.get_topo_sorted_gate_id_list 0 []) = some 1 := by
  constructor
  · rfl
  · rfl

/-! ## C3: the port-skip guard -/

/-- C3 counterexample: an inverter whose output wire `p` is a declared
input port is not protected by the guard (the code checks only
input-port-on-input, output-port-on-input and output-port-on-output).
The rewrite removes the gate and returns 1 instead of leaving it
untouched with 0. -/
theorem C3_out_wire_in_port_not_skipped_cx :
    (xformResult (InvEliminator.run_xform_inv_elimination 0 outIsInPortDag 1)).map
      (fun r => (r.1.getGate 1, r.2)) = some (none, 1) := by
  rfl

/-! ## C4: the conflict case -/

/-- C4 counterexample: starting from `parDag` (no invert attribute set
anywhere), eliminating inverter `N1` marks consumer pin `a`; eliminating
`N2` then takes the conflict branch (the driver feeds both `N2` and the
consumer, which also consumes `N2`'s output `c`), and afterwards the
consumer's two pins `a` and `c_inv` are BOTH marked invert-on-input —
not exactly one of them, as the claim states. -/
theorem C4_conflict_both_pins_marked_cx :
    (okDag (InvEliminator.apply 0 parDag)).map (fun d => d.getGate 3) =
      some (some ⟨["a", "c_inv"], ["y"], "buf1", ["c_inv", "a"]⟩) := by
  rfl

/-! ## The skip path of the rewrite -/

/-- On the port-skip path the rewrite returns count 0 with the DAG
unchanged and without logging. -/
theorem xform_skip (dbg : Nat) (d : Dag) (id : Nat) (g : Gate) (i o : String)
    (irest orest : List String)
    (hg : d.getGate id = some g) (hi : g.inputs = i :: irest) (ho : g.outputs = o :: orest)
    (hskip : (d.is_in_port i || d.is_out_port i || d.is_out_port o) = true) :
    InvEliminator.run_xform_inv_elimination dbg d id = .ok (d, 0, []) := by
  unfold InvEliminator.run_xform_inv_elimination
  rw [hg]
  simp only [hi, ho, hskip, if_true]

/-- An inverter consuming a declared input port (skip case for C3). -/
def skipInDag : Dag :=
  { gates := [(0, ⟨["x"], ["a"], "inv1", []⟩)],
    edges := [], in_ports := ["x"], out_ports := [] }

/-- An inverter driving a declared output port (skip case for C10). -/
def skipOutDag : Dag :=
  { gates := [(0, ⟨["x"], ["a"], "buf1", []⟩),
              (1, ⟨["a"], ["y"], "inv1", []⟩)],
    edges := [⟨0, 1, "a"⟩], in_ports := ["x"], out_ports := ["y"] }

/-- C3 (amended): for every inverter gate whose input wire is an input
port, or whose input or output wire is an output port, the rewrite leaves
the gate and all wiring untouched and returns 0.  (The fourth combination
— output wire being an input port — is not checked by the code; see the
counterexample.) -/
theorem C3_port_skip (dbg : Nat) (d : Dag) (id : Nat) (g : Gate) (i o : String)
    (irest orest : List String)
    (hg : d.getGate id = some g) (hi : g.inputs = i :: irest) (ho : g.outputs = o :: orest)
    (hskip : (d.is_in_port i || d.is_out_port i || d.is_out_port o) = true) :
    ∃ d2 log, InvEliminator.run_xform_inv_elimination dbg d id = .ok (d2, 0, log) ∧
      d2.getGate id = d.getGate id ∧ d2.edges = d.edges :=
  ⟨d, [], xform_skip dbg d id g i o irest orest hg hi ho hskip, rfl, rfl⟩

/-- C3 amended-claim witness on `skipInDag`. -/
theorem C3_port_skip_witness :
    ∃ d2 log, InvEliminator.run_xform_inv_elimination 0 skipInDag 0 = .ok (d2, 0, log) ∧
      d2.getGate 0 = skipInDag.getGate 0 ∧ d2.edges = skipInDag.edges :=
  C3_port_skip 0 skipInDag 0 ⟨["x"], ["a"], "inv1", []⟩ "x" "a" [] []
    (by rfl) (by rfl) (by rfl) (by decide)

/-- C10: when the port check causes a skip the rewrite performs no
mutation at all: the returned DAG is the input DAG, every gate, wire,
edge and invert attribute included, the count is 0 and nothing is
logged. -/
theorem C10_skip_no_mutation (dbg : Nat) (d : Dag) (id : Nat) (g : Gate) (i o : String)
    (irest orest : List String)
    (hg : d.getGate id = some g) (hi : g.inputs = i :: irest) (ho : g.outputs = o :: orest)
    (hskip : (d.is_in_port i || d.is_out_port i || d.is_out_port o) = true) :
    InvEliminator.run_xform_inv_elimination dbg d id = .ok (d, 0, []) :=
  xform_skip dbg d id g i o irest orest hg hi ho hskip

/-- C10 witness on `skipOutDag`. -/
theorem C10_skip_no_mutation_witness :
    InvEliminator.run_xform_inv_elimination 2 skipOutDag 1 = .ok (skipOutDag, 0, []) :=
  C10_skip_no_mutation 2 skipOutDag 1 ⟨["a"], ["y"], "inv1", []⟩ "a" "y" [] []
    (by rfl) (by rfl) (by rfl) (by decide)

/-! ## Error characterization of the container primitives -/

theorem remove_wire_error_eq (d : Dag) (u v : Nat) (e : DagError)
    (h : d.remove_wire u v = .error e) : e = .edgeNotFound := by
  unfold Dag.remove_wire at h
  split at h <;> simp_all

theorem remove_gate_error_eq (d : Dag) (id : Nat) (e : DagError)
    (h : d.remove_gate id = .error e) : e = .gateStillConnected ∨ e = .danglingGate := by
  unfold Dag.remove_gate at h
  split at h
  · simp_all
  · split at h <;> simp_all

theorem add_wire_error_eq (d : Dag) (n : String) (u v : Nat) (e : DagError)
    (h : d.add_wire n u v = .error e) : e = .danglingGate ∨ e = .duplicateWire := by
  unfold Dag.add_wire at h
  split at h
  · simp_all
  · split at h <;> simp_all

theorem removeLoadWires_error_eq (inv : Nat) (ls : List Nat) :
    ∀ d e d', InvEliminator.removeLoadWires inv d ls = .error (e, d') → e = .edgeNotFound := by
  induction ls with
  | nil =>
    intro d e d' h
    simp [InvEliminator.removeLoadWires] at h
  | cons l ls ih =>
    intro d e d' h
    unfold InvEliminator.removeLoadWires at h
    cases hrw : d.remove_wire inv l with
    | error e2 =>
      rw [hrw] at h
      simp only [Except.error.injEq, Prod.mk.injEq] at h
      rw [← h.1]
      exact remove_wire_error_eq d inv l e2 hrw
    | ok d2 =>
      rw [hrw] at h
      exact ih d2 e d' h

theorem xformLoads_error_ne_si (dbg drv : Nat) (i o : String) (ls : List Nat) :
    ∀ d e d', InvEliminator.xformLoads dbg drv i o d ls = .error (e, d') →
      e ≠ DagError.structuralIntegrity := by
  induction ls with
  | nil =>
    intro d e d' h
    simp [InvEliminator.xformLoads] at h
  | cons l ls ih =>
    intro d e d' h
    unfold InvEliminator.xformLoads at h
    cases hget : d.getGate l with
    | none =>
      rw [hget] at h
      simp only [Except.error.injEq, Prod.mk.injEq] at h
      rw [← h.1]
      simp
    | some g =>
      rw [hget] at h
      by_cases hmem : i ∈ g.inputs
      · simp only [hmem, if_true] at h
        cases hadd : (d.replace_output_wire drv o
            (d.uniqufy_wire_name (d.get_wire_base_name o ++ "_inv"))).add_wire
            (d.uniqufy_wire_name (d.get_wire_base_name o ++ "_inv")) drv l with
        | error e2 =>
          rw [hadd] at h
          simp only [Except.error.injEq, Prod.mk.injEq] at h
          rw [← h.1]
          rcases add_wire_error_eq _ _ _ _ _ hadd with h2 | h2 <;> simp [h2]
        | ok d2 =>
          rw [hadd] at h
          dsimp only at h
          cases hrec : InvEliminator.xformLoads dbg drv i o
              ((d2.replace_input_wire l o
                (d.uniqufy_wire_name (d.get_wire_base_name o ++ "_inv"))).invert_input_wire l
                (d.uniqufy_wire_name (d.get_wire_base_name o ++ "_inv"))) ls with
          | error e2 =>
            rw [hrec] at h
            simp only [Except.error.injEq] at h
            rw [h] at hrec
            exact ih _ _ _ hrec
          | ok r =>
            rw [hrec] at h
            simp at h
      · simp only [hmem, if_false] at h
        cases hadd : d.add_wire i drv l with
        | error e2 =>
          rw [hadd] at h
          simp only [Except.error.injEq, Prod.mk.injEq] at h
          rw [← h.1]
          rcases add_wire_error_eq _ _ _ _ _ hadd with h2 | h2 <;> simp [h2]
        | ok d2 =>
          rw [hadd] at h
          dsimp only at h
          cases hrec : InvEliminator.xformLoads dbg drv i o
              ((d2.replace_input_wire l o i).invert_input_wire l i) ls with
          | error e2 =>
            rw [hrec] at h
            simp only [Except.error.injEq] at h
            rw [h] at hrec
            exact ih _ _ _ hrec
          | ok r =>
            rw [hrec] at h
            simp at h

/-- The rewrite on the non-skip path: assert on the driver count, then
disconnect, delete and reconnect. -/
theorem xform_nonskip_eq (dbg : Nat) (d : Dag) (id : Nat) (g : Gate) (i o : String)
    (irest orest : List String)
    (hg : d.getGate id = some g) (hi : g.inputs = i :: irest) (ho : g.outputs = o :: orest)
    (hskip : (d.is_in_port i || d.is_out_port i || d.is_out_port o) = false) :
    InvEliminator.run_xform_inv_elimination dbg d id =
      (if (d.get_wire_fanin_gate_ids i).length = 1 then
        match d.remove_wire ((d.get_wire_fanin_gate_ids i).headD 0) id with
        | .error e => .error (e, d)
        | .ok d1 =>
          match InvEliminator.removeLoadWires id d1 (d.get_wire_fanout_gate_ids o) with
          | .error e => .error e
          | .ok d2 =>
            match d2.remove_gate id with
            | .error e => .error (e, d2)
            | .ok d3 =>
              match InvEliminator.xformLoads dbg ((d.get_wire_fanin_gate_ids i).headD 0) i o d3
                  (d.get_wire_fanout_gate_ids o) with
              | .error e => .error e
              | .ok (d4, log1) => .ok (d4, 1,
                  (if dbg ≥ 2 then [s!"DAG-Transform: Remove INV gate: {id}"] else []) ++ log1)
      else .error (.structuralIntegrity, d)) := by
  unfold InvEliminator.run_xform_inv_elimination
  rw [hg]
  simp only [hi, ho, hskip]
  rfl

/-! ## C7: the driver-count assertion -/

/-- C7: on a non-skipped target inverter the rewrite raises the
structural-integrity error exactly when the number of gates driving the
inverter's input wire is not 1, and any such raise carries the DAG
unchanged (the assertion precedes every edit). -/
theorem C7_structural_integrity_iff (dbg : Nat) (d : Dag) (id : Nat) (g : Gate)
    (i o : String) (irest orest : List String)
    (hg : d.getGate id = some g) (hi : g.inputs = i :: irest) (ho : g.outputs = o :: orest)
    (hskip : (d.is_in_port i || d.is_out_port i || d.is_out_port o) = false) :
    ((InvEliminator.run_xform_inv_elimination dbg d id =
        .error (.structuralIntegrity, d)) ↔ (d.get_wire_fanin_gate_ids i).length ≠ 1) ∧
    ∀ d', InvEliminator.run_xform_inv_elimination dbg d id =
        .error (.structuralIntegrity, d') → d' = d := by
  have hR := xform_nonskip_eq dbg d id g i o irest orest hg hi ho hskip
  by_cases hlen : (d.get_wire_fanin_gate_ids i).length = 1
  · rw [if_pos hlen] at hR
    have key : ∀ d', InvEliminator.run_xform_inv_elimination dbg d id ≠
        .error (.structuralIntegrity, d') := by
      intro d' hcon
      rw [hR] at hcon
      cases hrw : d.remove_wire ((d.get_wire_fanin_gate_ids i).headD 0) id with
      | error e2 =>
        rw [hrw] at hcon
        simp only [Except.error.injEq, Prod.mk.injEq] at hcon
        have h2 := remove_wire_error_eq _ _ _ _ hrw
        rw [hcon.1] at h2
        exact DagError.noConfusion h2
      | ok d1 =>
        rw [hrw] at hcon
        dsimp only at hcon
        cases hrem : InvEliminator.removeLoadWires id d1 (d.get_wire_fanout_gate_ids o) with
        | error p =>
          rw [hrem] at hcon
          simp only [Except.error.injEq] at hcon
          rw [hcon] at hrem
          have h2 := removeLoadWires_error_eq id (d.get_wire_fanout_gate_ids o) d1 _ _ hrem
          exact DagError.noConfusion h2
        | ok d2 =>
          rw [hrem] at hcon
          dsimp only at hcon
          cases hrg : d2.remove_gate id with
          | error e2 =>
            rw [hrg] at hcon
            simp only [Except.error.injEq, Prod.mk.injEq] at hcon
            have h2 := remove_gate_error_eq _ _ _ hrg
            rw [hcon.1] at h2
            rcases h2 with h2 | h2 <;> exact DagError.noConfusion h2
          | ok d3 =>
            rw [hrg] at hcon
            dsimp only at hcon
            cases hxf : InvEliminator.xformLoads dbg ((d.get_wire_fanin_gate_ids i).headD 0)
                i o d3 (d.get_wire_fanout_gate_ids o) with
            | error p =>
              rw [hxf] at hcon
              simp only [Except.error.injEq] at hcon
              rw [hcon] at hxf
              exact xformLoads_error_ne_si _ _ _ _ _ d3 _ d' hxf rfl
            | ok r =>
              rw [hxf] at hcon
              exact Except.noConfusion hcon
    constructor
    · constructor
      · intro hcon
        exact absurd hcon (key d)
      · intro hne
        exact absurd hlen hne
    · intro d' hcon
      exact absurd hcon (key d')
  · rw [if_neg hlen] at hR
    refine ⟨⟨fun _ => hlen, fun _ => hR⟩, ?_⟩
    intro d' hcon
    rw [hR] at hcon
    simp only [Except.error.injEq, Prod.mk.injEq] at hcon
    exact hcon.2.symm

/-- C7 witness: on `twoDriverDag` wire `i` has two drivers, and the
rewrite of inverter 2 raises the structural-integrity error with the DAG
untouched. -/
theorem C7_structural_integrity_iff_witness :
    InvEliminator.run_xform_inv_elimination 0 twoDriverDag 2 =
      .error (.structuralIntegrity, twoDriverDag) :=
  (C7_structural_integrity_iff 0 twoDriverDag 2 ⟨["i"], ["o"], "inv1", []⟩ "i" "o" [] []
    (by rfl) (by rfl) (by rfl) (by decide)).1.mpr (by decide)

/-! ## C9: the debug level only affects the log -/

/-- Rewrite result with the debug trace dropped. -/
def stripX : Except (DagError × Dag) (Dag × Nat × List String) → Except (DagError × Dag) (Dag × Nat)
  | .error e => .error e
  | .ok (d, k, _) => .ok (d, k)

/-- Reconnection-loop result with the debug trace dropped. -/
def stripL : Except (DagError × Dag) (Dag × List String) → Except (DagError × Dag) Dag
  | .error e => .error e
  | .ok (d, _) => .ok d

/-- `apply` result with the debug trace dropped. -/
def stripA : Except (DagError × Dag) (Dag × Option Nat × List String) →
    Except (DagError × Dag) (Dag × Option Nat)
  | .error e => .error e
  | .ok (d, v, _) => .ok (d, v)

theorem xformLoads_strip (dbg1 dbg2 drv : Nat) (i o : String) (ls : List Nat) :
    ∀ d, stripL (InvEliminator.xformLoads dbg1 drv i o d ls) =
      stripL (InvEliminator.xformLoads dbg2 drv i o d ls) := by
  induction ls with
  | nil => intro d; rfl
  | cons l ls ih =>
    intro d
    unfold InvEliminator.xformLoads
    cases hget : d.getGate l with
    | none => rfl
    | some g =>
      by_cases hmem : i ∈ g.inputs
      · simp only [hmem, if_true]
        cases hadd : (d.replace_output_wire drv o
            (d.uniqufy_wire_name (d.get_wire_base_name o ++ "_inv"))).add_wire
            (d.uniqufy_wire_name (d.get_wire_base_name o ++ "_inv")) drv l with
        | error e => rfl
        | ok d2 =>
          dsimp only
          have ih2 := ih ((d2.replace_input_wire l o
            (d.uniqufy_wire_name (d.get_wire_base_name o ++ "_inv"))).invert_input_wire l
            (d.uniqufy_wire_name (d.get_wire_base_name o ++ "_inv")))
          cases h1 : InvEliminator.xformLoads dbg1 drv i o
              ((d2.replace_input_wire l o
                (d.uniqufy_wire_name (d.get_wire_base_name o ++ "_inv"))).invert_input_wire l
                (d.uniqufy_wire_name (d.get_wire_base_name o ++ "_inv"))) ls with
          | error e1 =>
            rw [h1] at ih2
            cases h2 : InvEliminator.xformLoads dbg2 drv i o
                ((d2.replace_input_wire l o
                  (d.uniqufy_wire_name (d.get_wire_base_name o ++ "_inv"))).invert_input_wire l
                  (d.uniqufy_wire_name (d.get_wire_base_name o ++ "_inv"))) ls with
            | error e2 => rw [h2] at ih2; simp [stripL] at ih2; simp [ih2]
            | ok r2 => rw [h2] at ih2; simp [stripL] at ih2
          | ok r1 =>
            rw [h1] at ih2
            cases h2 : InvEliminator.xformLoads dbg2 drv i o
                ((d2.replace_input_wire l o
                  (d.uniqufy_wire_name (d.get_wire_base_name o ++ "_inv"))).invert_input_wire l
                  (d.uniqufy_wire_name (d.get_wire_base_name o ++ "_inv"))) ls with
            | error e2 => rw [h2] at ih2; simp [stripL] at ih2
            | ok r2 =>
              rw [h2] at ih2
              obtain ⟨da, la⟩ := r1
              obtain ⟨db, lb⟩ := r2
              simp [stripL] at ih2 ⊢
              exact ih2
      · simp only [hmem, if_false]
        cases hadd : d.add_wire i drv l with
        | error e => rfl
        | ok d2 =>
          dsimp only
          have ih2 := ih ((d2.replace_input_wire l o i).invert_input_wire l i)
          cases h1 : InvEliminator.xformLoads dbg1 drv i o
              ((d2.replace_input_wire l o i).invert_input_wire l i) ls with
          | error e1 =>
            rw [h1] at ih2
            cases h2 : InvEliminator.xformLoads dbg2 drv i o
                ((d2.replace_input_wire l o i).invert_input_wire l i) ls with
            | error e2 => rw [h2] at ih2; simp [stripL] at ih2; simp [ih2]
            | ok r2 => rw [h2] at ih2; simp [stripL] at ih2
          | ok r1 =>
            rw [h1] at ih2
            cases h2 : InvEliminator.xformLoads dbg2 drv i o
                ((d2.replace_input_wire l o i).invert_input_wire l i) ls with
            | error e2 => rw [h2] at ih2; simp [stripL] at ih2
            | ok r2 =>
              rw [h2] at ih2
              obtain ⟨da, la⟩ := r1
              obtain ⟨db, lb⟩ := r2
              simp [stripL] at ih2 ⊢
              exact ih2

/-- A missing gate id raises immediately (models the Python KeyError;
never reached from `apply`, whose targets exist). -/
theorem xform_noGate (dbg : Nat) (d : Dag) (id : Nat) (hget : d.getGate id = none) :
    InvEliminator.run_xform_inv_elimination dbg d id = .error (.danglingGate, d) := by
  unfold InvEliminator.run_xform_inv_elimination
  rw [hget]

/-- A target gate without input or output pins raises immediately (models
the Python IndexError on `inputs[0]`/`outputs[0]`). -/
theorem xform_nil_pins (dbg : Nat) (d : Dag) (id : Nat) (g : Gate)
    (hget : d.getGate id = some g) (hnil : g.inputs = [] ∨ g.outputs = []) :
    InvEliminator.run_xform_inv_elimination dbg d id = .error (.danglingGate, d) := by
  unfold InvEliminator.run_xform_inv_elimination
  rw [hget]
  rcases hnil with h | h
  · cases ho : g.outputs <;> simp only [h, ho]
  · cases hi : g.inputs <;> simp only [h, hi]

theorem run_xform_strip (dbg1 dbg2 : Nat) (d : Dag) (id : Nat) :
    stripX (InvEliminator.run_xform_inv_elimination dbg1 d id) =
      stripX (InvEliminator.run_xform_inv_elimination dbg2 d id) := by
  cases hget : d.getGate id with
  | none => rw [xform_noGate dbg1 d id hget, xform_noGate dbg2 d id hget]
  | some g =>
    cases hi : g.inputs with
    | nil =>
      rw [xform_nil_pins dbg1 d id g hget (Or.inl hi), xform_nil_pins dbg2 d id g hget (Or.inl hi)]
    | cons i irest =>
      cases ho : g.outputs with
      | nil =>
        rw [xform_nil_pins dbg1 d id g hget (Or.inr ho),
          xform_nil_pins dbg2 d id g hget (Or.inr ho)]
      | cons o orest =>
        by_cases hskip : (d.is_in_port i || d.is_out_port i || d.is_out_port o) = true
        · rw [xform_skip dbg1 d id g i o irest orest hget hi ho hskip,
            xform_skip dbg2 d id g i o irest orest hget hi ho hskip]
        · rw [Bool.not_eq_true] at hskip
          rw [xform_nonskip_eq dbg1 d id g i o irest orest hget hi ho hskip,
            xform_nonskip_eq dbg2 d id g i o irest orest hget hi ho hskip]
          by_cases hlen : (d.get_wire_fanin_gate_ids i).length = 1
          · rw [if_pos hlen, if_pos hlen]
            cases hrw : d.remove_wire ((d.get_wire_fanin_gate_ids i).headD 0) id with
            | error e => rfl
            | ok d1 =>
              dsimp only
              cases hrem : InvEliminator.removeLoadWires id d1 (d.get_wire_fanout_gate_ids o) with
              | error e => rfl
              | ok d2 =>
                dsimp only
                cases hrg : d2.remove_gate id with
                | error e => rfl
                | ok d3 =>
                  dsimp only
                  have hr := xformLoads_strip dbg1 dbg2 ((d.get_wire_fanin_gate_ids i).headD 0)
                    i o (d.get_wire_fanout_gate_ids o) d3
                  cases h1 : InvEliminator.xformLoads dbg1 ((d.get_wire_fanin_gate_ids i).headD 0)
                      i o d3 (d.get_wire_fanout_gate_ids o) with
                  | error e1 =>
                    rw [h1] at hr
                    cases h2 : InvEliminator.xformLoads dbg2
                        ((d.get_wire_fanin_gate_ids i).headD 0)
                        i o d3 (d.get_wire_fanout_gate_ids o) with
                    | error e2 => rw [h2] at hr; simp [stripL] at hr; simp [hr]
                    | ok r2 => rw [h2] at hr; simp [stripL] at hr
                  | ok r1 =>
                    rw [h1] at hr
                    cases h2 : InvEliminator.xformLoads dbg2
                        ((d.get_wire_fanin_gate_ids i).headD 0)
                        i o d3 (d.get_wire_fanout_gate_ids o) with
                    | error e2 => rw [h2] at hr; simp [stripL] at hr
                    | ok r2 =>
                      rw [h2] at hr
                      obtain ⟨da, la⟩ := r1
                      obtain ⟨db, lb⟩ := r2
                      simp [stripL] at hr
                      simp [stripX, hr]
          · rw [if_neg hlen, if_neg hlen]

theorem applyLoop_strip (dbg1 dbg2 : Nat) (ids : List Nat) :
    ∀ d t log1 log2,
      stripX (InvEliminator.applyLoop dbg1 d ids t log1) =
        stripX (InvEliminator.applyLoop dbg2 d ids t log2) := by
  induction ids with
  | nil => intro d t log1 log2; rfl
  | cons id ids ih =>
    intro d t log1 log2
    unfold InvEliminator.applyLoop
    by_cases htgt : InvEliminator.is_target_gate d id = true
    · simp only [htgt, if_true]
      have hr := run_xform_strip dbg1 dbg2 d id
      cases h1 : InvEliminator.run_xform_inv_elimination dbg1 d id with
      | error e1 =>
        rw [h1] at hr
        cases h2 : InvEliminator.run_xform_inv_elimination dbg2 d id with
        | error e2 => rw [h2] at hr; simp [stripX] at hr; simp [hr]
        | ok r2 =>
          rw [h2] at hr
          obtain ⟨db, kb, lb⟩ := r2
          simp [stripX] at hr
      | ok r1 =>
        rw [h1] at hr
        obtain ⟨da, ka, la⟩ := r1
        cases h2 : InvEliminator.run_xform_inv_elimination dbg2 d id with
        | error e2 => rw [h2] at hr; simp [stripX] at hr
        | ok r2 =>
          rw [h2] at hr
          obtain ⟨db, kb, lb⟩ := r2
          simp [stripX] at hr
          dsimp only
          rw [hr.1, hr.2]
          exact ih db (t + kb) (log1 ++ la) (log2 ++ lb)
    · simp only [htgt, if_false]
      exact ih d t log1 log2

/-- C9: for every DAG and every pair of debug levels, `apply` produces the
same outcome (same final DAG, same returned value, same error if any); the
debug level influences only the printed output. -/
theorem C9_debug_level_irrelevant (d : Dag) (dbg1 dbg2 : Nat) :
    stripA (InvEliminator.apply dbg1 d) = stripA (InvEliminator.apply dbg2 d) := by
  unfold InvEliminator.apply
  have h := applyLoop_strip dbg1 dbg2 d.get_topo_sorted_gate_id_list d 0 [] []
  cases h1 : InvEliminator.applyLoop dbg1 d d.get_topo_sorted_gate_id_list 0 [] with
  | error e1 =>
    rw [h1] at h
    cases h2 : InvEliminator.applyLoop dbg2 d d.get_topo_sorted_gate_id_list 0 [] with
    | error e2 => rw [h2] at h; simp [stripX] at h; simp [h]
    | ok r2 =>
      rw [h2] at h
      obtain ⟨db, kb, lb⟩ := r2
      simp [stripX] at h
  | ok r1 =>
    rw [h1] at h
    obtain ⟨da, ka, la⟩ := r1
    cases h2 : InvEliminator.applyLoop dbg2 d d.get_topo_sorted_gate_id_list 0 [] with
    | error e2 => rw [h2] at h; simp [stripX] at h
    | ok r2 =>
      rw [h2] at h
      obtain ⟨db, kb, lb⟩ := r2
      simp [stripX] at h
      simp [stripA, h.1]

/-! ## Success characterization of the container primitives -/

theorem remove_wire_ok_eq (d : Dag) (u v : Nat) (d' : Dag)
    (h : d.remove_wire u v = .ok d') :
    d' = { d with edges := d.edges.filter (fun e => decide (¬(e.src = u ∧ e.dst = v))) } ∧
    ∃ e ∈ d.edges, e.src = u ∧ e.dst = v := by
  unfold Dag.remove_wire at h
  split at h
  · exact ⟨by injection h with h2; exact h2.symm, by assumption⟩
  · exact Except.noConfusion h

theorem remove_wire_ok_intro (d : Dag) (u v : Nat)
    (hex : ∃ e ∈ d.edges, e.src = u ∧ e.dst = v) :
    d.remove_wire u v =
      .ok { d with edges := d.edges.filter (fun e => decide (¬(e.src = u ∧ e.dst = v))) } := by
  unfold Dag.remove_wire
  rw [if_pos hex]

theorem remove_gate_ok_eq (d : Dag) (id : Nat) (d' : Dag)
    (h : d.remove_gate id = .ok d') :
    d' = { d with gates := d.gates.filter (fun p => decide (p.1 ≠ id)) } ∧
    (¬ ∃ e ∈ d.edges, e.src = id ∨ e.dst = id) ∧ (d.getGate id).isSome = true := by
  unfold Dag.remove_gate at h
  split at h
  · exact Except.noConfusion h
  · split at h
    · refine ⟨by injection h with h2; exact h2.symm, by assumption, by assumption⟩
    · exact Except.noConfusion h

theorem remove_gate_ok_intro (d : Dag) (id : Nat)
    (hnc : ¬ ∃ e ∈ d.edges, e.src = id ∨ e.dst = id) (hs : (d.getGate id).isSome = true) :
    d.remove_gate id = .ok { d with gates := d.gates.filter (fun p => decide (p.1 ≠ id)) } := by
  unfold Dag.remove_gate
  rw [if_neg hnc, if_pos hs]

theorem add_wire_ok_eq (d : Dag) (n : String) (u v : Nat) (d' : Dag)
    (h : d.add_wire n u v = .ok d') :
    d' = { d with edges := ⟨u, v, n⟩ :: d.edges } ∧
    (d.getGate u).isSome = true ∧ (d.getGate v).isSome = true ∧
    ¬((∃ e ∈ d.edges, e.wire = n ∧ e.src ≠ u) ∨ (∃ p ∈ d.gates, n ∈ p.2.outputs ∧ p.1 ≠ u)) := by
  unfold Dag.add_wire at h
  split at h
  · exact Except.noConfusion h
  · split at h
    · exact Except.noConfusion h
    · refine ⟨by injection h with h2; exact h2.symm, ?_, ?_, by assumption⟩
      · rename_i hng _
        rw [not_not] at hng
        exact hng.1
      · rename_i hng _
        rw [not_not] at hng
        exact hng.2

theorem add_wire_ok_intro (d : Dag) (n : String) (u v : Nat)
    (hu : (d.getGate u).isSome = true) (hv : (d.getGate v).isSome = true)
    (hdup : ¬((∃ e ∈ d.edges, e.wire = n ∧ e.src ≠ u) ∨
      (∃ p ∈ d.gates, n ∈ p.2.outputs ∧ p.1 ≠ u))) :
    d.add_wire n u v = .ok { d with edges := ⟨u, v, n⟩ :: d.edges } := by
  unfold Dag.add_wire
  rw [if_neg (by simp [hu, hv]), if_neg hdup]

/-! ## Gates and keys through the rewrite -/

theorem keys_modifyGate (d : Dag) (id : Nat) (f : Gate → Gate) :
    (d.modifyGate id f).gates.map Prod.fst = d.gates.map Prod.fst := by
  simp only [Dag.modifyGate, List.map_map]
  apply List.map_congr_left
  intro p _
  by_cases hp : p.1 = id <;> simp [hp]

theorem keys_replace_output (d : Dag) (id : Nat) (ow nw : String) :
    (d.replace_output_wire id ow nw).gates.map Prod.fst = d.gates.map Prod.fst := by
  unfold Dag.replace_output_wire
  dsimp only
  exact keys_modifyGate d id _

theorem keys_replace_input (d : Dag) (id : Nat) (ow nw : String) :
    (d.replace_input_wire id ow nw).gates.map Prod.fst = d.gates.map Prod.fst :=
  keys_modifyGate d id _

theorem keys_invert_input (d : Dag) (id : Nat) (w : String) :
    (d.invert_input_wire id w).gates.map Prod.fst = d.gates.map Prod.fst :=
  keys_modifyGate d id _

theorem removeLoadWires_ok_gates (inv : Nat) (ls : List Nat) :
    ∀ d d', InvEliminator.removeLoadWires inv d ls = .ok d' → d'.gates = d.gates := by
  induction ls with
  | nil =>
    intro d d' h
    simp only [InvEliminator.removeLoadWires] at h
    injection h with h2
    rw [h2]
  | cons l ls ih =>
    intro d d' h
    unfold InvEliminator.removeLoadWires at h
    cases hrw : d.remove_wire inv l with
    | error e => rw [hrw] at h; exact Except.noConfusion h
    | ok d2 =>
      rw [hrw] at h
      have h2 := (remove_wire_ok_eq d inv l d2 hrw).1
      rw [ih d2 d' h, h2]

theorem xformLoads_ok_keys (dbg drv : Nat) (i o : String) (ls : List Nat) :
    ∀ d d' log, InvEliminator.xformLoads dbg drv i o d ls = .ok (d', log) →
      d'.gates.map Prod.fst = d.gates.map Prod.fst := by
  induction ls with
  | nil =>
    intro d d' log h
    simp only [InvEliminator.xformLoads] at h
    injection h with h2
    injection h2 with ha hb
    rw [ha]
  | cons l ls ih =>
    intro d d' log h
    unfold InvEliminator.xformLoads at h
    cases hget : d.getGate l with
    | none => rw [hget] at h; exact Except.noConfusion h
    | some g =>
      rw [hget] at h
      by_cases hmem : i ∈ g.inputs
      · simp only [hmem, if_true] at h
        cases hadd : (d.replace_output_wire drv o
            (d.uniqufy_wire_name (d.get_wire_base_name o ++ "_inv"))).add_wire
            (d.uniqufy_wire_name (d.get_wire_base_name o ++ "_inv")) drv l with
        | error e => rw [hadd] at h; exact Except.noConfusion h
        | ok d2 =>
          rw [hadd] at h
          dsimp only at h
          cases hrec : InvEliminator.xformLoads dbg drv i o
              ((d2.replace_input_wire l o
                (d.uniqufy_wire_name (d.get_wire_base_name o ++ "_inv"))).invert_input_wire l
                (d.uniqufy_wire_name (d.get_wire_base_name o ++ "_inv"))) ls with
          | error e => rw [hrec] at h; exact Except.noConfusion h
          | ok r =>
            rw [hrec] at h
            obtain ⟨d5, lg⟩ := r
            dsimp only at h
            injection h with h2
            injection h2 with ha hb
            rw [← ha]
            have hk := ih _ _ _ hrec
            rw [hk, keys_invert_input, keys_replace_input,
              (add_wire_ok_eq _ _ _ _ _ hadd).1, keys_replace_output]
      · simp only [hmem, if_false] at h
        cases hadd : d.add_wire i drv l with
        | error e => rw [hadd] at h; exact Except.noConfusion h
        | ok d2 =>
          rw [hadd] at h
          dsimp only at h
          cases hrec : InvEliminator.xformLoads dbg drv i o
              ((d2.replace_input_wire l o i).invert_input_wire l i) ls with
          | error e => rw [hrec] at h; exact Except.noConfusion h
          | ok r =>
            rw [hrec] at h
            obtain ⟨d5, lg⟩ := r
            dsimp only at h
            injection h with h2
            injection h2 with ha hb
            rw [← ha]
            have hk := ih _ _ _ hrec
            rw [hk, keys_invert_input, keys_replace_input,
              (add_wire_ok_eq _ _ _ _ _ hadd).1]

theorem getGate_gates_eq (d d' : Dag) (h : d'.gates = d.gates) (id : Nat) :
    d'.getGate id = d.getGate id := by
  unfold Dag.getGate
  rw [h]

/-- A successful rewrite either skipped (count 0, DAG unchanged) or
eliminated exactly the target gate (count 1, the target's key removed
from the gate list, no other key touched). -/
theorem run_xform_ok_cases (dbg : Nat) (d : Dag) (id : Nat) (d' : Dag) (k : Nat)
    (log : List String)
    (h : InvEliminator.run_xform_inv_elimination dbg d id = .ok (d', k, log)) :
    (k = 0 ∧ d' = d) ∨
    (k = 1 ∧ (d.getGate id).isSome = true ∧
      d'.gates.map Prod.fst = (d.gates.filter (fun p => decide (p.1 ≠ id))).map Prod.fst) := by
  cases hget : d.getGate id with
  | none => rw [xform_noGate dbg d id hget] at h; exact Except.noConfusion h
  | some g =>
    cases hi : g.inputs with
    | nil => rw [xform_nil_pins dbg d id g hget (Or.inl hi)] at h; exact Except.noConfusion h
    | cons i irest =>
      cases ho : g.outputs with
      | nil => rw [xform_nil_pins dbg d id g hget (Or.inr ho)] at h; exact Except.noConfusion h
      | cons o orest =>
        by_cases hskip : (d.is_in_port i || d.is_out_port i || d.is_out_port o) = true
        · rw [xform_skip dbg d id g i o irest orest hget hi ho hskip] at h
          injection h with h2
          injection h2 with ha hb
          injection hb with hk _
          exact Or.inl ⟨hk.symm, ha.symm⟩
        · rw [Bool.not_eq_true] at hskip
          rw [xform_nonskip_eq dbg d id g i o irest orest hget hi ho hskip] at h
          by_cases hlen : (d.get_wire_fanin_gate_ids i).length = 1
          · rw [if_pos hlen] at h
            cases hrw : d.remove_wire ((d.get_wire_fanin_gate_ids i).headD 0) id with
            | error e => rw [hrw] at h; exact Except.noConfusion h
            | ok d1 =>
              rw [hrw] at h
              dsimp only at h
              cases hrem : InvEliminator.removeLoadWires id d1
                  (d.get_wire_fanout_gate_ids o) with
              | error e => rw [hrem] at h; exact Except.noConfusion h
              | ok d2 =>
                rw [hrem] at h
                dsimp only at h
                cases hrg : d2.remove_gate id with
                | error e => rw [hrg] at h; exact Except.noConfusion h
                | ok d3 =>
                  rw [hrg] at h
                  dsimp only at h
                  cases hxf : InvEliminator.xformLoads dbg
                      ((d.get_wire_fanin_gate_ids i).headD 0) i o d3
                      (d.get_wire_fanout_gate_ids o) with
                  | error e => rw [hxf] at h; exact Except.noConfusion h
                  | ok r =>
                    rw [hxf] at h
                    obtain ⟨d4, lg⟩ := r
                    dsimp only at h
                    injection h with h2
                    injection h2 with ha hb
                    injection hb with hk _
                    have hg1 : d1.gates = d.gates := (remove_wire_ok_eq _ _ _ _ hrw).1 ▸ rfl
                    have hg2 : d2.gates = d.gates :=
                      (removeLoadWires_ok_gates _ _ _ _ hrem).trans hg1
                    have hrg2 := remove_gate_ok_eq _ _ _ hrg
                    have hg3 : d3.gates = d2.gates.filter (fun p => decide (p.1 ≠ id)) :=
                      hrg2.1 ▸ rfl
                    have hk4 := xformLoads_ok_keys dbg
                      ((d.get_wire_fanin_gate_ids i).headD 0) i o
                      (d.get_wire_fanout_gate_ids o) d3 d4 lg hxf
                    refine Or.inr ⟨hk.symm, ?_, ?_⟩
                    · rfl
                    · rw [← ha, hk4, hg3, hg2]
          · rw [if_neg hlen] at h; exact Except.noConfusion h

/-- Removing the single entry keyed `id` from a nodup-keyed gate list
shrinks it by exactly one. -/
theorem length_filter_key (id : Nat) :
    ∀ l : List (Nat × Gate), (l.map Prod.fst).Nodup → (List.lookup id l).isSome = true →
      l.length = (l.filter (fun p => decide (p.1 ≠ id))).length + 1 := by
  intro l
  induction l with
  | nil => intro _ hs; simp [List.lookup] at hs
  | cons p l ih =>
    intro hnd hs
    by_cases hp : p.1 = id
    · have hnd2 : (p.1 :: l.map Prod.fst).Nodup := by simpa using hnd
      have hrest : ∀ q ∈ l, q.1 ≠ id := by
        intro q hq hq1
        refine (List.nodup_cons.mp hnd2).1 ?_
        rw [hp, ← hq1]
        exact List.mem_map_of_mem Prod.fst hq
      have hfl : l.filter (fun p => decide (p.1 ≠ id)) = l :=
        List.filter_eq_self.mpr (fun q hq => by simpa using hrest q hq)
      have hhd : (decide (p.1 ≠ id)) = false := by simp [hp]
      rw [List.filter_cons, hhd]
      simp only [Bool.false_eq_true, if_false, List.length_cons, hfl]
    · have hs2 : (List.lookup id l).isSome = true := by
        rw [List.lookup] at hs
        have hne : (id == p.1) = false := by
          simp only [beq_eq_false_iff_ne, ne_eq]
          exact fun h => hp h.symm
        rwa [hne] at hs
      have hnd2 := (List.nodup_cons.mp (by simpa using hnd : (p.1 :: l.map Prod.fst).Nodup)).2
      have hrec := ih hnd2 hs2
      have hpd : decide (p.1 ≠ id) = true := by simpa using hp
      simp only [List.filter_cons, hpd, if_true, List.length_cons]
      omega

/-- Along a successful traversal the accumulated count grows exactly by
the number of gates removed. -/
theorem applyLoop_count (dbg : Nat) (ids : List Nat) :
    ∀ d t log d1 t1 log1, (d.gates.map Prod.fst).Nodup →
      InvEliminator.applyLoop dbg d ids t log = .ok (d1, t1, log1) →
      d.gates.length + t1 = d1.gates.length + t1 + (t1 - t) ∧ t ≤ t1 ∧
      d.gates.length = d1.gates.length + (t1 - t) ∧ (d1.gates.map Prod.fst).Nodup := by
  induction ids with
  | nil =>
    intro d t log d1 t1 log1 hnd h
    simp only [InvEliminator.applyLoop] at h
    injection h with h2
    injection h2 with ha hb
    injection hb with hc hd
    subst ha
    subst hc
    simp [hnd]
  | cons id ids ih =>
    intro d t log d1 t1 log1 hnd h
    unfold InvEliminator.applyLoop at h
    by_cases htgt : InvEliminator.is_target_gate d id = true
    · simp only [htgt, if_true] at h
      cases hx : InvEliminator.run_xform_inv_elimination dbg d id with
      | error e => rw [hx] at h; exact Except.noConfusion h
      | ok r =>
        rw [hx] at h
        obtain ⟨d', k, lg⟩ := r
        dsimp only at h
        rcases run_xform_ok_cases dbg d id d' k lg hx with ⟨hk, hd'⟩ | ⟨hk, hsome, hkeys⟩
        · subst hk
          subst hd'
          have hrec := ih d' (t + 0) (log ++ lg) d1 t1 log1 hnd h
          obtain ⟨h1, h2, h3, h4⟩ := hrec
          exact ⟨by omega, by omega, by omega, h4⟩
        · subst hk
          have hnd' : (d'.gates.map Prod.fst).Nodup := by
            rw [hkeys]
            exact (List.Sublist.map Prod.fst (List.filter_sublist d.gates)).nodup hnd
          have hlen : d.gates.length = d'.gates.length + 1 := by
            have h1 : d'.gates.length = (d.gates.filter (fun p => decide (p.1 ≠ id))).length := by
              have := congrArg List.length hkeys
              simpa using this
            rw [h1]
            exact length_filter_key id d.gates hnd hsome
          have hrec := ih d' (t + 1) (log ++ lg) d1 t1 log1 hnd' h
          obtain ⟨h1, h2, h3, h4⟩ := hrec
          exact ⟨by omega, by omega, by omega, h4⟩
    · rw [Bool.not_eq_true] at htgt
      simp only [htgt, Bool.false_eq_true, if_false] at h
      exact ih d t log d1 t1 log1 hnd h

/-- C2 (amended): `apply` returns `None`; the eliminated count is only
accumulated internally as the sum of the per-gate rewrite return values,
and equals the number of gates the pass removed from the DAG. -/
theorem C2_apply_returns_none_count_internal (dbg : Nat) (d : Dag) (d1 : Dag)
    (v : Option Nat) (log : List String)
    (hnd : (d.gates.map Prod.fst).Nodup)
    (h : InvEliminator.apply dbg d = .ok (d1, v, log)) :
    v = none ∧
    ∃ t lg, InvEliminator.applyLoop dbg d d.get_topo_sorted_gate_id_list 0 [] =
      .ok (d1, t, lg) ∧ d.gates.length = d1.gates.length + t := by
  unfold InvEliminator.apply at h
  cases hl : InvEliminator.applyLoop dbg d d.get_topo_sorted_gate_id_list 0 [] with
  | error e => rw [hl] at h; exact Except.noConfusion h
  | ok r =>
    rw [hl] at h
    obtain ⟨d0, t0, lg0⟩ := r
    dsimp only at h
    injection h with h2
    injection h2 with ha hb
    injection hb with hv _
    subst ha
    refine ⟨hv.symm, t0, lg0, rfl, ?_⟩
    have hcount := applyLoop_count dbg d.get_topo_sorted_gate_id_list d 0 [] d0 t0 lg0 hnd hl
    obtain ⟨h1, h2, h3, h4⟩ := hcount
    omega

/-- C2 amended-claim witness on `oneInvDag`: one gate is removed, the
internal total is 1, the returned value is `None`. -/
theorem C2_apply_returns_none_count_internal_witness :
    (none : Option Nat) = none ∧
    ∃ t lg, InvEliminator.applyLoop 0 oneInvDag oneInvDag.get_topo_sorted_gate_id_list 0 [] =
      .ok ({ gates := [(0, ⟨["x"], ["a"], "buf1", []⟩), (2, ⟨["a"], ["y"], "buf1", ["a"]⟩)],
             edges := [⟨0, 2, "a"⟩], in_ports := ["x"], out_ports := ["y"] }, t, lg) ∧
      oneInvDag.gates.length =
        ({ gates := [(0, ⟨["x"], ["a"], "buf1", []⟩), (2, ⟨["a"], ["y"], "buf1", ["a"]⟩)],
           edges := [⟨0, 2, "a"⟩], in_ports := ["x"], out_ports := ["y"] } : Dag).gates.length + t :=
  C2_apply_returns_none_count_internal 0 oneInvDag
    { gates := [(0, ⟨["x"], ["a"], "buf1", []⟩), (2, ⟨["a"], ["y"], "buf1", ["a"]⟩)],
      edges := [⟨0, 2, "a"⟩], in_ports := ["x"], out_ports := ["y"] }
    none [] (by decide) (by rfl)

/-! ## Gate lookup through the edit primitives -/

theorem lookup_cons_eq_ite (id' k : Nat) (g : Gate) (l : List (Nat × Gate)) :
    List.lookup id' ((k, g) :: l) = if id' = k then some g else List.lookup id' l := by
  by_cases h : id' = k
  · simp [List.lookup_cons, h]
  · simp [List.lookup_cons, h, beq_false_of_ne h]

theorem getGate_modifyGate (d : Dag) (id id' : Nat) (f : Gate → Gate) :
    (d.modifyGate id f).getGate id' =
      if id' = id then (d.getGate id').map f else d.getGate id' := by
  unfold Dag.modifyGate Dag.getGate
  dsimp only
  induction d.gates with
  | nil => by_cases h : id' = id <;> simp [List.lookup, h]
  | cons p l ih =>
    obtain ⟨k, g⟩ := p
    simp only [List.map_cons]
    by_cases hp : k = id
    · subst hp
      have hhead : (if ((k, g) : Nat × Gate).1 = k then (((k, g) : Nat × Gate).1, f g)
          else ((k, g) : Nat × Gate)) = (k, f g) := by simp
      rw [hhead, lookup_cons_eq_ite, lookup_cons_eq_ite]
      by_cases hq : id' = k
      · simp [hq]
      · rw [ih]
        simp [hq]
    · have hhead : (if ((k, g) : Nat × Gate).1 = id then (((k, g) : Nat × Gate).1, f g)
          else ((k, g) : Nat × Gate)) = (k, g) := by simp [hp]
      rw [hhead, lookup_cons_eq_ite, lookup_cons_eq_ite]
      by_cases hq : id' = k
      · subst hq
        simp [if_neg hp]
      · rw [ih]
        simp [hq]

theorem getGate_removeKey (d : Dag) (id id' : Nat) :
    List.lookup id' (d.gates.filter (fun p => decide (p.1 ≠ id))) =
      if id' = id then none else d.getGate id' := by
  unfold Dag.getGate
  induction d.gates with
  | nil => by_cases h : id' = id <;> simp [List.lookup, h]
  | cons p l ih =>
    obtain ⟨k, g⟩ := p
    by_cases hp : k = id
    · subst hp
      rw [List.filter_cons]
      have hc : (decide (((k, g) : Nat × Gate).1 ≠ k)) = false := by simp
      rw [hc]
      simp only [Bool.false_eq_true, if_false]
      rw [ih, lookup_cons_eq_ite]
      by_cases hq : id' = k
      · simp [hq]
      · simp [hq]
    · rw [List.filter_cons]
      have hc : (decide (((k, g) : Nat × Gate).1 ≠ id)) = true := by simpa using hp
      rw [hc]
      simp only [if_true]
      rw [lookup_cons_eq_ite, lookup_cons_eq_ite]
      by_cases hq : id' = k
      · subst hq
        simp [if_neg hp]
      · rw [ih]
        simp [hq]

theorem getGate_replace_input (d : Dag) (id id' : Nat) (ow nw : String) :
    (d.replace_input_wire id ow nw).getGate id' =
      if id' = id then
        (d.getGate id').map (fun g => { g with inputs := Dag.renameIn ow nw g.inputs })
      else d.getGate id' :=
  getGate_modifyGate d id id' _

theorem getGate_invert_input (d : Dag) (id id' : Nat) (w : String) :
    (d.invert_input_wire id w).getGate id' =
      if id' = id then
        (d.getGate id').map (fun g =>
          { g with inv_flags := if w ∈ g.inv_flags then g.inv_flags else w :: g.inv_flags })
      else d.getGate id' :=
  getGate_modifyGate d id id' _

theorem getGate_replace_output (d : Dag) (id id' : Nat) (ow nw : String) :
    (d.replace_output_wire id ow nw).getGate id' =
      if id' = id then
        (d.getGate id').map (fun g => { g with outputs := Dag.renameIn ow nw g.outputs })
      else d.getGate id' := by
  unfold Dag.replace_output_wire
  dsimp only
  show (d.modifyGate id (fun g =>
    { g with outputs := Dag.renameIn ow nw g.outputs })).getGate id' = _
  exact getGate_modifyGate d id id' _

theorem edges_replace_input (d : Dag) (id : Nat) (ow nw : String) :
    (d.replace_input_wire id ow nw).edges = d.edges := rfl

theorem edges_invert_input (d : Dag) (id : Nat) (w : String) :
    (d.invert_input_wire id w).edges = d.edges := rfl

theorem edges_replace_output (d : Dag) (id : Nat) (ow nw : String) :
    (d.replace_output_wire id ow nw).edges =
      d.edges.map (fun e => if e.src = id ∧ e.wire = ow then { e with wire := nw } else e) := rfl

theorem ports_replace_input (d : Dag) (id : Nat) (ow nw : String) :
    (d.replace_input_wire id ow nw).in_ports = d.in_ports ∧
    (d.replace_input_wire id ow nw).out_ports = d.out_ports := ⟨rfl, rfl⟩

/-- Renaming is the identity on a pin list not containing the old name. -/
theorem renameIn_noop (ow nw : String) (l : List String) (h : ow ∉ l) :
    Dag.renameIn ow nw l = l := by
  unfold Dag.renameIn
  rw [List.map_congr_left (g := id), List.map_id]
  intro w hw
  have : w ≠ ow := fun he => h (he ▸ hw)
  simp [this]

/-- `replace_output_wire` is a no-op when the old name is not an output
pin of the gate and labels no edge out of it (always the case at the
pass's call site: the old name is the just-deleted inverter's output). -/
theorem replace_output_noop (d : Dag) (id : Nat) (ow nw : String)
    (hg : ∀ p ∈ d.gates, p.1 = id → ow ∉ p.2.outputs)
    (he : ∀ e ∈ d.edges, ¬(e.src = id ∧ e.wire = ow)) :
    d.replace_output_wire id ow nw = d := by
  unfold Dag.replace_output_wire Dag.modifyGate
  dsimp only
  obtain ⟨G, E, ip, op⟩ := d
  simp only at hg he ⊢
  congr 1
  · rw [List.map_congr_left (g := fun a => a), List.map_id']
    intro p hp
    by_cases hpid : p.1 = id
    · have hno := hg p hp hpid
      rw [if_pos hpid, renameIn_noop ow nw p.2.outputs hno]
    · rw [if_neg hpid]
  · rw [List.map_congr_left (g := fun a => a), List.map_id']
    intro e hep
    simp [he e hep]

/-! ## C6: the standard single-load scenario -/

/-- C6: driver `D` drives wire `dw` into inverter `N1` whose output `n`
feeds load `L` with `L.inputs = [n]`.  After the rewrite `N1` is gone,
`L.inputs = [dw]` with the pin marked invert-on-input, and an edge
`D→L` on wire `dw` exists. -/
theorem C6_standard_scenario (dbg : Nat) (d : Dag) (D N1 L : Nat) (dw n : String)
    (gD gN gL : Gate)
    (hDN : D ≠ N1) (hLN : L ≠ N1)
    (hgD : d.getGate D = some gD) (hgN : d.getGate N1 = some gN)
    (hgL : d.getGate L = some gL)
    (hNin : gN.inputs = [dw]) (hNout : gN.outputs = [n])
    (hLin : gL.inputs = [n]) (hdn : dw ≠ n)
    (hp1 : d.is_in_port dw = false) (hp2 : d.is_out_port dw = false)
    (hp3 : d.is_out_port n = false)
    (hfanin : d.get_wire_fanin_gate_ids dw = [D])
    (hfanout : d.get_wire_fanout_gate_ids n = [L])
    (hE1 : (⟨D, N1, dw⟩ : Edge) ∈ d.edges)
    (hE2 : (⟨N1, L, n⟩ : Edge) ∈ d.edges)
    (hNedges : ∀ e ∈ d.edges, e.src = N1 ∨ e.dst = N1 → e = ⟨D, N1, dw⟩ ∨ e = ⟨N1, L, n⟩)
    (hwD : ∀ e ∈ d.edges, e.wire = dw → e.src = D)
    (hoD : ∀ p ∈ d.gates, dw ∈ p.2.outputs → p.1 = D) :
    ∃ d' log, InvEliminator.run_xform_inv_elimination dbg d N1 = .ok (d', 1, log) ∧
      d'.getGate N1 = none ∧
      (∃ gL', d'.getGate L = some gL' ∧ gL'.inputs = [dw] ∧ dw ∈ gL'.inv_flags) ∧
      (⟨D, L, dw⟩ : Edge) ∈ d'.edges := by
  have hskip : (d.is_in_port dw || d.is_out_port dw || d.is_out_port n) = false := by
    rw [hp1, hp2, hp3]
    rfl
  have hR := xform_nonskip_eq dbg d N1 gN dw n [] [] hgN hNin hNout hskip
  rw [hfanin, hfanout] at hR
  have hlen1 : ([D] : List Nat).length = 1 := rfl
  rw [if_pos hlen1] at hR
  -- step 1: disconnect driver -> inverter
  have hrw1 := remove_wire_ok_intro d D N1 ⟨⟨D, N1, dw⟩, hE1, rfl, rfl⟩
  have hD0 : ([D].headD 0) = D := rfl
  rw [hD0] at hR
  rw [hrw1] at hR
  dsimp only at hR
  set F1 := d.edges.filter (fun e => decide (¬(e.src = D ∧ e.dst = N1))) with hF1
  set d1 : Dag := ({ gates := d.gates, edges := F1, in_ports := d.in_ports, out_ports := d.out_ports } : Dag) with hd1
  -- step 2: disconnect inverter -> load
  have hE2' : (⟨N1, L, n⟩ : Edge) ∈ F1 := by
    rw [hF1]
    apply List.mem_filter.mpr
    refine ⟨hE2, ?_⟩
    simp only [decide_eq_true_eq]
    intro hcon
    exact hDN (hcon.1.symm)
  have hrw2 := remove_wire_ok_intro d1 N1 L ⟨⟨N1, L, n⟩, hE2', rfl, rfl⟩
  have hrlw : InvEliminator.removeLoadWires N1 d1 [L] =
      .ok { d1 with edges := F1.filter (fun e => decide (¬(e.src = N1 ∧ e.dst = L))) } := by
    unfold InvEliminator.removeLoadWires
    rw [hrw2]
    rfl
  rw [hrlw] at hR
  dsimp only at hR
  set F2 := F1.filter (fun e => decide (¬(e.src = N1 ∧ e.dst = L))) with hF2
  set d2 : Dag := ({ gates := d.gates, edges := F2, in_ports := d.in_ports, out_ports := d.out_ports } : Dag) with hd2
  -- step 3: delete the inverter gate
  have hconn : ¬ ∃ e ∈ d2.edges, e.src = N1 ∨ e.dst = N1 := by
    rintro ⟨e, he, htouch⟩
    rw [hd2] at he
    dsimp only at he
    rw [hF2] at he
    have he1 := List.mem_filter.mp he
    rw [hF1] at he1
    have he2 := List.mem_filter.mp he1.1
    rcases hNedges e he2.1 htouch with rfl | rfl
    · have := he2.2
      simp at this
    · have := he1.2
      simp at this
  have hsome2 : (d2.getGate N1).isSome = true := by
    rw [hd2]
    show (List.lookup N1 d.gates).isSome = true
    rw [show List.lookup N1 d.gates = d.getGate N1 from rfl, hgN]
    rfl
  have hrg := remove_gate_ok_intro d2 N1 hconn hsome2
  rw [hrg] at hR
  dsimp only at hR
  set GF := d.gates.filter (fun p => decide (p.1 ≠ N1)) with hGF
  set d3 : Dag := ({ gates := GF, edges := F2, in_ports := d.in_ports, out_ports := d.out_ports } : Dag) with hd3
  -- step 4: reconnect the load
  have hgL3 : d3.getGate L = some gL := by
    rw [hd3]
    show List.lookup L GF = some gL
    rw [hGF]
    rw [show List.lookup L (d.gates.filter (fun p => decide (p.1 ≠ N1))) =
      if L = N1 then none else d.getGate L from getGate_removeKey d N1 L]
    rw [if_neg hLN, hgL]
  have hgD3 : d3.getGate D = some gD := by
    rw [hd3]
    show List.lookup D GF = some gD
    rw [hGF]
    rw [show List.lookup D (d.gates.filter (fun p => decide (p.1 ≠ N1))) =
      if D = N1 then none else d.getGate D from getGate_removeKey d N1 D]
    rw [if_neg hDN, hgD]
  have hmem : dw ∉ gL.inputs := by
    rw [hLin]
    simp [hdn]
  have hdup : ¬((∃ e ∈ d3.edges, e.wire = dw ∧ e.src ≠ D) ∨
      (∃ p ∈ d3.gates, dw ∈ p.2.outputs ∧ p.1 ≠ D)) := by
    rintro (⟨e, he, hew, hes⟩ | ⟨p, hp, hpo, hps⟩)
    · rw [hd3] at he
      dsimp only at he
      rw [hF2] at he
      have he1 := (List.mem_filter.mp he).1
      rw [hF1] at he1
      have he2 := (List.mem_filter.mp he1).1
      exact hes (hwD e he2 hew)
    · rw [hd3] at hp
      dsimp only at hp
      rw [hGF] at hp
      have hp1' := (List.mem_filter.mp hp).1
      exact hps (hoD p hp1' hpo)
  have hadd := add_wire_ok_intro d3 dw D L (by rw [hgD3]; rfl) (by rw [hgL3]; rfl) hdup
  have hxf : InvEliminator.xformLoads dbg D dw n d3 [L] =
      .ok (((({ d3 with edges := ⟨D, L, dw⟩ :: d3.edges } : Dag).replace_input_wire L n
        dw).invert_input_wire L dw), []) := by
    unfold InvEliminator.xformLoads
    rw [hgL3]
    dsimp only
    rw [if_neg hmem]
    rw [hadd]
    rfl
  rw [hxf] at hR
  dsimp only at hR
  refine ⟨_, _, hR, ?_, ?_, ?_⟩
  · rw [getGate_invert_input, if_neg (fun h => hLN h.symm), getGate_replace_input,
      if_neg (fun h => hLN h.symm)]
    show List.lookup N1 GF = none
    rw [hGF]
    rw [show List.lookup N1 (d.gates.filter (fun p => decide (p.1 ≠ N1))) =
      if N1 = N1 then none else d.getGate N1 from getGate_removeKey d N1 N1]
    rw [if_pos rfl]
  · refine ⟨({ gL with inputs := [dw], inv_flags := if dw ∈ gL.inv_flags then gL.inv_flags else dw :: gL.inv_flags } : Gate), ?_, rfl, ?_⟩
    · rw [getGate_invert_input, if_pos rfl, getGate_replace_input, if_pos rfl]
      rw [show ({ d3 with edges := ⟨D, L, dw⟩ :: d3.edges } : Dag).getGate L = d3.getGate L from rfl]
      rw [hgL3]
      simp only [Option.map_some']
      rw [show Dag.renameIn n dw gL.inputs = [dw] from by rw [hLin]; simp [Dag.renameIn]]
    · by_cases hf : dw ∈ gL.inv_flags
      · simp [hf]
      · simp [hf]
  · rw [edges_invert_input, edges_replace_input]
    exact List.mem_cons_self _ _

/-- C6 witness on `oneInvDag` (`D = 0`, `N1 = 1`, `L = 2`, `d = "a"`,
`n = "b"`). -/
theorem C6_standard_scenario_witness :
    ∃ d' log, InvEliminator.run_xform_inv_elimination 0 oneInvDag 1 = .ok (d', 1, log) ∧
      d'.getGate 1 = none ∧
      (∃ gL', d'.getGate 2 = some gL' ∧ gL'.inputs = ["a"] ∧ "a" ∈ gL'.inv_flags) ∧
      (⟨0, 2, "a"⟩ : Edge) ∈ d'.edges :=
  C6_standard_scenario 0 oneInvDag 0 1 2 "a" "b"
    ⟨["x"], ["a"], "buf1", []⟩ ⟨["a"], ["b"], "inv1", []⟩ ⟨["b"], ["y"], "buf1", []⟩
    (by decide) (by decide) (by rfl) (by rfl) (by rfl) (by rfl) (by rfl) (by rfl)
    (by decide) (by decide) (by decide) (by decide) (by rfl) (by rfl)
    (by decide) (by decide) (by decide) (by decide) (by decide)

/-! ## Freshness of uniquified names -/

theorem joinAll_length_ge (names : List String) (s : String) (h : s ∈ names) :
    s.length ≤ (joinAll names).length := by
  induction names with
  | nil => cases h
  | cons a rest ih =>
    rcases List.mem_cons.mp h with rfl | h2
    · simp [joinAll, String.length_append]
    · have := ih h2
      simp only [joinAll, String.length_append]
      omega

theorem pickFresh_not_mem (names : List String) (base : String) :
    ∀ ks, pickFresh names base ks ∉ names := by
  intro ks
  induction ks with
  | nil =>
    intro hmem
    have hlen := joinAll_length_ge names _ hmem
    have hexp : (pickFresh names base []).length =
        base.length + 1 + (joinAll names).length + 1 := by
      show (base ++ "_" ++ joinAll names ++ "2").length = _
      simp [String.length_append]
      rfl
    omega
  | cons k ks ih =>
    unfold pickFresh
    split
    · exact ih
    · assumption

/-- `uniqufy_wire_name` never returns a name already present in the graph. -/
theorem uniqufy_not_mem (d : Dag) (base : String) :
    d.uniqufy_wire_name base ∉ d.wire_names := by
  unfold Dag.uniqufy_wire_name
  dsimp only
  split
  · exact pickFresh_not_mem _ _ _
  · assumption

theorem wire_of_edge_mem (d : Dag) (e : Edge) (he : e ∈ d.edges) : e.wire ∈ d.wire_names := by
  unfold Dag.wire_names
  refine List.mem_append.mpr (Or.inl ?_)
  refine List.mem_append.mpr (Or.inl ?_)
  refine List.mem_append.mpr (Or.inr ?_)
  exact List.mem_map_of_mem Edge.wire he

theorem output_pin_mem (d : Dag) (p : Nat × Gate) (hp : p ∈ d.gates) (w : String)
    (hw : w ∈ p.2.outputs) : w ∈ d.wire_names := by
  unfold Dag.wire_names
  refine List.mem_append.mpr (Or.inl ?_)
  refine List.mem_append.mpr (Or.inl ?_)
  refine List.mem_append.mpr (Or.inl ?_)
  exact List.mem_flatMap.mpr ⟨p, hp, List.mem_append.mpr (Or.inr hw)⟩

theorem input_pin_mem (d : Dag) (p : Nat × Gate) (hp : p ∈ d.gates) (w : String)
    (hw : w ∈ p.2.inputs) : w ∈ d.wire_names := by
  unfold Dag.wire_names
  refine List.mem_append.mpr (Or.inl ?_)
  refine List.mem_append.mpr (Or.inl ?_)
  refine List.mem_append.mpr (Or.inl ?_)
  exact List.mem_flatMap.mpr ⟨p, hp, List.mem_append.mpr (Or.inl hw)⟩

theorem renameIn_mem_of_ne (ow nw w : String) (l : List String) (hw : w ∈ l) (hne : w ≠ ow) :
    w ∈ Dag.renameIn ow nw l := by
  unfold Dag.renameIn
  exact List.mem_map.mpr ⟨w, hw, by simp [hne]⟩

theorem renameIn_mem_new (ow nw : String) (l : List String) (hw : ow ∈ l) :
    nw ∈ Dag.renameIn ow nw l := by
  unfold Dag.renameIn
  exact List.mem_map.mpr ⟨ow, hw, by simp⟩

theorem lookup_mem (k : Nat) (g : Gate) :
    ∀ l : List (Nat × Gate), List.lookup k l = some g → (k, g) ∈ l := by
  intro l
  induction l with
  | nil => intro h; simp [List.lookup] at h
  | cons p l ih =>
    intro h
    obtain ⟨k', g'⟩ := p
    rw [lookup_cons_eq_ite] at h
    by_cases hk : k = k'
    · rw [if_pos hk] at h
      injection h with h2
      subst hk
      subst h2
      exact List.mem_cons_self _ _
    · rw [if_neg hk] at h
      exact List.mem_cons.mpr (Or.inr (ih h))

/-! ## C4: the conflict case -/

/-- The DAG state after the rewrite's disconnect-and-delete phase of
inverter `N` (driver `D`, single load `L`), on which the fresh `_inv`
name is generated. -/
def postRemovalState (d : Dag) (D N L : Nat) : Dag :=
  { gates := d.gates.filter (fun p => decide (p.1 ≠ N)),
    edges := (d.edges.filter (fun e => decide (¬(e.src = D ∧ e.dst = N)))).filter
      (fun e => decide (¬(e.src = N ∧ e.dst = L))),
    in_ports := d.in_ports, out_ports := d.out_ports }

/-- C4 (amended): in the conflict case with a single load, after the
rewrite the consumer has the direct pin `i` and a freshly named pin
(distinct from `i`), both driven by the original driver; the fresh pin is
marked invert-on-input while the direct pin's flag is exactly what it was
before; the fresh name comes from uniquify on `o`'s base name with an
`_inv` suffix and collides with no wire name present when it is
generated. -/
theorem C4_conflict_rewrite (dbg : Nat) (d : Dag) (D N L : Nat) (i o : String)
    (gD gN gL : Gate)
    (hDN : D ≠ N) (hLN : L ≠ N)
    (hgD : d.getGate D = some gD) (hgN : d.getGate N = some gN)
    (hgL : d.getGate L = some gL)
    (hNin : gN.inputs = [i]) (hNout : gN.outputs = [o])
    (hconf : i ∈ gL.inputs) (hoL : o ∈ gL.inputs) (hio : i ≠ o)
    (hp1 : d.is_in_port i = false) (hp2 : d.is_out_port i = false)
    (hp3 : d.is_out_port o = false)
    (hfanin : d.get_wire_fanin_gate_ids i = [D])
    (hfanout : d.get_wire_fanout_gate_ids o = [L])
    (hE1 : (⟨D, N, i⟩ : Edge) ∈ d.edges)
    (hE2 : (⟨N, L, o⟩ : Edge) ∈ d.edges)
    (hEdirect : (⟨D, L, i⟩ : Edge) ∈ d.edges)
    (hNedges : ∀ e ∈ d.edges, e.src = N ∨ e.dst = N → e = ⟨D, N, i⟩ ∨ e = ⟨N, L, o⟩)
    (hwO : ∀ e ∈ d.edges, e.wire = o → e.src = N)
    (hoDout : ∀ p ∈ d.gates, o ∈ p.2.outputs → p.1 = N) :
    ∃ d' log fresh, InvEliminator.run_xform_inv_elimination dbg d N = .ok (d', 1, log) ∧
      fresh = (postRemovalState d D N L).uniqufy_wire_name
        (d.get_wire_base_name o ++ "_inv") ∧
      fresh ∉ (postRemovalState d D N L).wire_names ∧ i ≠ fresh ∧
      (∃ gL', d'.getGate L = some gL' ∧
        i ∈ gL'.inputs ∧ fresh ∈ gL'.inputs ∧
        fresh ∈ gL'.inv_flags ∧ (i ∈ gL'.inv_flags ↔ i ∈ gL.inv_flags)) ∧
      (⟨D, L, i⟩ : Edge) ∈ d'.edges ∧ (⟨D, L, fresh⟩ : Edge) ∈ d'.edges := by
  have hskip : (d.is_in_port i || d.is_out_port i || d.is_out_port o) = false := by
    rw [hp1, hp2, hp3]
    rfl
  have hR := xform_nonskip_eq dbg d N gN i o [] [] hgN hNin hNout hskip
  rw [hfanin, hfanout] at hR
  have hlen1 : ([D] : List Nat).length = 1 := rfl
  rw [if_pos hlen1] at hR
  have hrw1 := remove_wire_ok_intro d D N ⟨⟨D, N, i⟩, hE1, rfl, rfl⟩
  have hD0 : ([D].headD 0) = D := rfl
  rw [hD0] at hR
  rw [hrw1] at hR
  dsimp only at hR
  set F1 := d.edges.filter (fun e => decide (¬(e.src = D ∧ e.dst = N))) with hF1
  set d1 : Dag := ({ gates := d.gates, edges := F1, in_ports := d.in_ports, out_ports := d.out_ports } : Dag) with hd1
  have hE2' : (⟨N, L, o⟩ : Edge) ∈ F1 := by
    rw [hF1]
    apply List.mem_filter.mpr
    refine ⟨hE2, ?_⟩
    simp only [decide_eq_true_eq]
    intro hcon
    exact hDN (hcon.1.symm)
  have hrw2 := remove_wire_ok_intro d1 N L ⟨⟨N, L, o⟩, hE2', rfl, rfl⟩
  have hrlw : InvEliminator.removeLoadWires N d1 [L] =
      .ok { d1 with edges := F1.filter (fun e => decide (¬(e.src = N ∧ e.dst = L))) } := by
    unfold InvEliminator.removeLoadWires
    rw [hrw2]
    rfl
  rw [hrlw] at hR
  dsimp only at hR
  set F2 := F1.filter (fun e => decide (¬(e.src = N ∧ e.dst = L))) with hF2
  set d2 : Dag := ({ gates := d.gates, edges := F2, in_ports := d.in_ports, out_ports := d.out_ports } : Dag) with hd2
  have hconn : ¬ ∃ e ∈ d2.edges, e.src = N ∨ e.dst = N := by
    rintro ⟨e, he, htouch⟩
    rw [hd2] at he
    dsimp only at he
    rw [hF2] at he
    have he1 := List.mem_filter.mp he
    rw [hF1] at he1
    have he2 := List.mem_filter.mp he1.1
    rcases hNedges e he2.1 htouch with rfl | rfl
    · have := he2.2
      simp at this
    · have := he1.2
      simp at this
  have hsome2 : (d2.getGate N).isSome = true := by
    rw [hd2]
    show (List.lookup N d.gates).isSome = true
    rw [show List.lookup N d.gates = d.getGate N from rfl, hgN]
    rfl
  have hrg := remove_gate_ok_intro d2 N hconn hsome2
  rw [hrg] at hR
  dsimp only at hR
  set GF := d.gates.filter (fun p => decide (p.1 ≠ N)) with hGF
  set d3 : Dag := ({ gates := GF, edges := F2, in_ports := d.in_ports, out_ports := d.out_ports } : Dag) with hd3
  have hd3post : d3 = postRemovalState d D N L := by
    rw [hd3, postRemovalState, hGF, hF2, hF1]
  have hgL3 : d3.getGate L = some gL := by
    rw [hd3]
    show List.lookup L GF = some gL
    rw [hGF]
    rw [show List.lookup L (d.gates.filter (fun p => decide (p.1 ≠ N))) =
      if L = N then none else d.getGate L from getGate_removeKey d N L]
    rw [if_neg hLN, hgL]
  have hgD3 : d3.getGate D = some gD := by
    rw [hd3]
    show List.lookup D GF = some gD
    rw [hGF]
    rw [show List.lookup D (d.gates.filter (fun p => decide (p.1 ≠ N))) =
      if D = N then none else d.getGate D from getGate_removeKey d N D]
    rw [if_neg hDN, hgD]
  set fresh := d3.uniqufy_wire_name (d3.get_wire_base_name o ++ "_inv") with hfresh
  have hfr : fresh ∉ d3.wire_names := by
    rw [hfresh]
    exact uniqufy_not_mem d3 _
  have hnoop : d3.replace_output_wire D o fresh = d3 := by
    apply replace_output_noop
    · intro p hp hpD
      rw [hd3] at hp
      dsimp only at hp
      rw [hGF] at hp
      intro hoo
      have hp1' := (List.mem_filter.mp hp).1
      have := hoDout p hp1' hoo
      exact hDN (hpD ▸ this ▸ rfl)
    · intro e he
      rw [hd3] at he
      dsimp only at he
      rw [hF2] at he
      have he1 := (List.mem_filter.mp he).1
      rw [hF1] at he1
      have he2 := (List.mem_filter.mp he1).1
      rintro ⟨hsrc, hwire⟩
      exact hDN (hsrc ▸ hwO e he2 hwire)
  have hdup : ¬((∃ e ∈ d3.edges, e.wire = fresh ∧ e.src ≠ D) ∨
      (∃ p ∈ d3.gates, fresh ∈ p.2.outputs ∧ p.1 ≠ D)) := by
    rintro (⟨e, he, hew, _⟩ | ⟨p, hp, hpo, _⟩)
    · exact hfr (hew ▸ wire_of_edge_mem d3 e he)
    · exact hfr (output_pin_mem d3 p hp fresh hpo)
  have hadd := add_wire_ok_intro d3 fresh D L (by rw [hgD3]; rfl) (by rw [hgL3]; rfl) hdup
  have hxf : InvEliminator.xformLoads dbg D i o d3 [L] =
      .ok (((({ d3 with edges := ⟨D, L, fresh⟩ :: d3.edges } : Dag).replace_input_wire L o
        fresh).invert_input_wire L fresh),
        if dbg ≥ 2 then
          [s!"DAG-Transform: Both direct and inverted versions of {i} are connected to gate {L}. Renaming inverted wire."]
        else []) := by
    unfold InvEliminator.xformLoads
    rw [hgL3]
    dsimp only
    rw [if_pos hconf]
    rw [← hfresh, hnoop, hadd]
    dsimp only
    rw [show InvEliminator.xformLoads dbg D i o
      ((({ d3 with edges := ⟨D, L, fresh⟩ :: d3.edges } : Dag).replace_input_wire L o
        fresh).invert_input_wire L fresh) [] =
      .ok (((({ d3 with edges := ⟨D, L, fresh⟩ :: d3.edges } : Dag).replace_input_wire L o
        fresh).invert_input_wire L fresh), []) from rfl]
    dsimp only
    rw [List.append_nil]
  rw [hxf] at hR
  dsimp only at hR
  have hiNames : i ∈ d3.wire_names :=
    input_pin_mem d3 (L, gL) (lookup_mem L gL d3.gates hgL3) i hconf
  have hine : i ≠ fresh := fun he => hfr (he ▸ hiNames)
  refine ⟨_, _, fresh, hR, ?_, ?_, hine, ?_, ?_, ?_⟩
  · rw [hfresh, hd3post]
    rfl
  · rw [← hd3post]
    exact hfr
  · refine ⟨({ gL with inputs := Dag.renameIn o fresh gL.inputs, inv_flags := if fresh ∈ gL.inv_flags then gL.inv_flags else fresh :: gL.inv_flags } : Gate), ?_, ?_, ?_, ?_, ?_⟩
    · rw [getGate_invert_input, if_pos rfl, getGate_replace_input, if_pos rfl]
      rw [show ({ d3 with edges := ⟨D, L, fresh⟩ :: d3.edges } : Dag).getGate L = d3.getGate L from rfl]
      rw [hgL3]
      rfl
    · exact renameIn_mem_of_ne o fresh i gL.inputs hconf hio
    · exact renameIn_mem_new o fresh gL.inputs hoL
    · by_cases hf : fresh ∈ gL.inv_flags
      · simp [hf]
      · simp [hf]
    · by_cases hf : fresh ∈ gL.inv_flags
      · simp [hf]
      · simp only [hf, if_false]
        rw [List.mem_cons]
        constructor
        · rintro (he | hm)
          · exact absurd he hine
          · exact hm
        · intro hm
          exact Or.inr hm
  · rw [edges_invert_input, edges_replace_input]
    refine List.mem_cons.mpr (Or.inr ?_)
    show (⟨D, L, i⟩ : Edge) ∈ F2
    rw [hF2]
    apply List.mem_filter.mpr
    refine ⟨?_, by simp [fun h : (D : Nat) = N => hDN h]⟩
    rw [hF1]
    apply List.mem_filter.mpr
    refine ⟨hEdirect, by simp [fun h : (L : Nat) = N => hLN h]⟩
  · rw [edges_invert_input, edges_replace_input]
    exact List.mem_cons_self _ _

/-- A conflict scenario: the driver feeds both the inverter and the
consumer, and the consumer also consumes the inverter's output. -/
def conflictDag : Dag :=
  { gates := [(0, ⟨["x"], ["a"], "buf1", []⟩),
              (1, ⟨["a"], ["b"], "inv1", []⟩),
              (2, ⟨["a", "b"], ["y"], "buf1", []⟩)],
    edges := [⟨0, 1, "a"⟩, ⟨0, 2, "a"⟩, ⟨1, 2, "b"⟩],
    in_ports := ["x"], out_ports := ["y"] }

/-- C4 amended-claim witness on `conflictDag`. -/
theorem C4_conflict_rewrite_witness :
    ∃ d' log fresh, InvEliminator.run_xform_inv_elimination 0 conflictDag 1 = .ok (d', 1, log) ∧
      fresh = (postRemovalState conflictDag 0 1 2).uniqufy_wire_name
        (conflictDag.get_wire_base_name "b" ++ "_inv") ∧
      fresh ∉ (postRemovalState conflictDag 0 1 2).wire_names ∧ "a" ≠ fresh ∧
      (∃ gL', d'.getGate 2 = some gL' ∧
        "a" ∈ gL'.inputs ∧ fresh ∈ gL'.inputs ∧
        fresh ∈ gL'.inv_flags ∧ ("a" ∈ gL'.inv_flags ↔ "a" ∈ (⟨["a", "b"], ["y"], "buf1", []⟩ : Gate).inv_flags)) ∧
      (⟨0, 2, "a"⟩ : Edge) ∈ d'.edges ∧ (⟨0, 2, fresh⟩ : Edge) ∈ d'.edges :=
  C4_conflict_rewrite 0 conflictDag 0 1 2 "a" "b"
    ⟨["x"], ["a"], "buf1", []⟩ ⟨["a"], ["b"], "inv1", []⟩ ⟨["a", "b"], ["y"], "buf1", []⟩
    (by decide) (by decide) (by rfl) (by rfl) (by rfl) (by rfl) (by rfl)
    (by decide) (by decide) (by decide) (by decide) (by decide) (by decide)
    (by decide) (by decide) (by decide) (by decide) (by decide)
    (by decide) (by decide) (by decide)

/-! ## Well-formed netlists -/

/-- Gate keys are unique. -/
def wfKeysNodup (d : Dag) : Bool := decide ((d.gates.map Prod.fst).Nodup)

/-- Every edge connects existing gates. -/
def wfEdgeEndpoints (d : Dag) : Bool :=
  d.edges.all (fun e => (d.getGate e.src).isSome && (d.getGate e.dst).isSome)

/-- An edge's wire is an output pin of its source gate. -/
def wfEdgeSrcPin (d : Dag) : Bool :=
  d.edges.all (fun e =>
    match d.getGate e.src with
    | some g => decide (e.wire ∈ g.outputs)
    | none => false)

/-- An edge's wire is an input pin of its destination gate. -/
def wfEdgeDstPin (d : Dag) : Bool :=
  d.edges.all (fun e =>
    match d.getGate e.dst with
    | some g => decide (e.wire ∈ g.inputs)
    | none => false)

/-- Every consumed non-input-port pin is fed by an edge. -/
def wfPinEdge (d : Dag) : Bool :=
  d.gates.all (fun p => p.2.inputs.all (fun w =>
    d.is_in_port w || d.edges.any (fun e => decide (e.dst = p.1 ∧ e.wire = w))))

/-- A wire has a single driving gate across all its edges. -/
def wfUniqueDriver (d : Dag) : Bool :=
  d.edges.all (fun e => d.edges.all (fun e2 => decide (e.wire = e2.wire → e.src = e2.src)))

/-- An edge labelled by some gate's output pin originates at that gate. -/
def wfEdgePinAgree (d : Dag) : Bool :=
  d.edges.all (fun e => d.gates.all (fun p => decide (e.wire ∈ p.2.outputs → e.src = p.1)))

/-- Acyclicity via a ranking function. -/
def wfRank (d : Dag) (rank : Nat → Nat) : Bool :=
  d.edges.all (fun e => decide (rank e.src < rank e.dst))

/-- `inv1` gates have exactly one input and one output pin. -/
def wfInvArity (d : Dag) : Bool :=
  d.gates.all (fun p =>
    decide (p.2.gate_func = "inv1" → p.2.inputs.length = 1 ∧ p.2.outputs.length = 1))

/-- No two gates share an output pin name. -/
def wfPinDriverUnique (d : Dag) : Bool :=
  d.gates.all (fun p => d.gates.all (fun q => p.2.outputs.all (fun w =>
    decide (w ∈ q.2.outputs → p.1 = q.1))))

/-- No gate drives a declared input port. -/
def wfOutNotInPort (d : Dag) : Bool :=
  d.gates.all (fun p => p.2.outputs.all (fun w => !(d.is_in_port w)))

/-- Modelled from the spec: the data-model invariants of a netlist DAG
(single driver per wire, consistent fanin/fanout bookkeeping, acyclicity,
unique names/keys, inverter arity, undriven input ports). -/
def wellFormedB (d : Dag) (rank : Nat → Nat) : Bool :=
  wfKeysNodup d && wfEdgeEndpoints d && wfEdgeSrcPin d && wfEdgeDstPin d && wfPinEdge d &&
  wfUniqueDriver d && wfEdgePinAgree d && wfRank d rank && wfInvArity d &&
  wfPinDriverUnique d && wfOutNotInPort d

theorem wf_endpoints (d : Dag) (h : wfEdgeEndpoints d = true) :
    ∀ e ∈ d.edges, (d.getGate e.src).isSome = true ∧ (d.getGate e.dst).isSome = true := by
  intro e he
  have := List.all_eq_true.mp h e he
  simpa using this

theorem wf_src_pin (d : Dag) (h : wfEdgeSrcPin d = true) :
    ∀ e ∈ d.edges, ∀ g, d.getGate e.src = some g → e.wire ∈ g.outputs := by
  intro e he g hg
  have := List.all_eq_true.mp h e he
  rw [hg] at this
  simpa using this

theorem wf_dst_pin (d : Dag) (h : wfEdgeDstPin d = true) :
    ∀ e ∈ d.edges, ∀ g, d.getGate e.dst = some g → e.wire ∈ g.inputs := by
  intro e he g hg
  have := List.all_eq_true.mp h e he
  rw [hg] at this
  simpa using this

theorem wf_pin_edge (d : Dag) (h : wfPinEdge d = true) :
    ∀ p ∈ d.gates, ∀ w ∈ p.2.inputs, d.is_in_port w = false →
      ∃ e ∈ d.edges, e.dst = p.1 ∧ e.wire = w := by
  intro p hp w hw hport
  have h1 := List.all_eq_true.mp (List.all_eq_true.mp h p hp) w hw
  rw [hport] at h1
  simp only [Bool.false_or, List.any_eq_true, decide_eq_true_eq] at h1
  exact h1

theorem wf_unique_driver (d : Dag) (h : wfUniqueDriver d = true) :
    ∀ e ∈ d.edges, ∀ e2 ∈ d.edges, e.wire = e2.wire → e.src = e2.src := by
  intro e he e2 he2
  have := List.all_eq_true.mp (List.all_eq_true.mp h e he) e2 he2
  exact of_decide_eq_true this

theorem wf_edge_pin_agree (d : Dag) (h : wfEdgePinAgree d = true) :
    ∀ e ∈ d.edges, ∀ p ∈ d.gates, e.wire ∈ p.2.outputs → e.src = p.1 := by
  intro e he p hp
  have := List.all_eq_true.mp (List.all_eq_true.mp h e he) p hp
  exact of_decide_eq_true this

theorem wf_rank (d : Dag) (rank : Nat → Nat) (h : wfRank d rank = true) :
    ∀ e ∈ d.edges, rank e.src < rank e.dst := by
  intro e he
  have := List.all_eq_true.mp h e he
  simpa using this

theorem wf_inv_arity (d : Dag) (h : wfInvArity d = true) :
    ∀ p ∈ d.gates, p.2.gate_func = "inv1" →
      p.2.inputs.length = 1 ∧ p.2.outputs.length = 1 := by
  intro p hp
  have := List.all_eq_true.mp h p hp
  exact of_decide_eq_true this

theorem wf_pin_driver_unique (d : Dag) (h : wfPinDriverUnique d = true) :
    ∀ p ∈ d.gates, ∀ q ∈ d.gates, ∀ w ∈ p.2.outputs, w ∈ q.2.outputs → p.1 = q.1 := by
  intro p hp q hq w hw
  have := List.all_eq_true.mp (List.all_eq_true.mp
    (List.all_eq_true.mp h p hp) q hq) w hw
  exact of_decide_eq_true this

/-! ## Generic success of the non-skip stages -/

theorem dedup_const (a : Nat) :
    ∀ l : List Nat, l ≠ [] → (∀ x ∈ l, x = a) → l.dedup = [a] := by
  intro l
  induction l with
  | nil => intro h _; exact absurd rfl h
  | cons x l ih =>
    intro _ hall
    have hx : x = a := hall x (List.mem_cons_self _ _)
    subst hx
    by_cases hl : l = []
    · subst hl
      rfl
    · have hdl := ih hl (fun y hy => hall y (List.mem_cons.mpr (Or.inr hy)))
      have hmem : x ∈ l := by
        obtain ⟨y, hy⟩ := List.exists_mem_of_ne_nil l hl
        have := hall y (List.mem_cons.mpr (Or.inr hy))
        rw [← this]
        exact hy
      rw [List.dedup_cons_of_mem hmem, hdl]

theorem removeLoadWires_ok_general (inv : Nat) (ls : List Nat) :
    ∀ dcur, ls.Nodup → (∀ l ∈ ls, ∃ e ∈ dcur.edges, e.src = inv ∧ e.dst = l) →
      ∃ d2, InvEliminator.removeLoadWires inv dcur ls = .ok d2 ∧
        d2.gates = dcur.gates ∧ d2.in_ports = dcur.in_ports ∧ d2.out_ports = dcur.out_ports ∧
        (∀ e ∈ d2.edges, e ∈ dcur.edges) ∧
        (∀ e ∈ dcur.edges, e.src ≠ inv → e ∈ d2.edges) ∧
        (∀ e ∈ d2.edges, e.src = inv → e.dst ∉ ls) := by
  induction ls with
  | nil =>
    intro dcur _ _
    exact ⟨dcur, rfl, rfl, rfl, rfl, fun e he => he, fun e he _ => he,
      fun e _ _ => List.not_mem_nil _⟩
  | cons l ls ih =>
    intro dcur hnd hex
    obtain ⟨e0, he0, hsrc, hdst⟩ := hex l (List.mem_cons_self _ _)
    have hrw := remove_wire_ok_intro dcur inv l ⟨e0, he0, by rw [hsrc], by rw [hdst]⟩
    set dmid : Dag := { dcur with
      edges := dcur.edges.filter (fun e => decide (¬(e.src = inv ∧ e.dst = l))) } with hdmid
    have hnd2 := (List.nodup_cons.mp hnd).2
    have hlnotin := (List.nodup_cons.mp hnd).1
    have hex2 : ∀ l' ∈ ls, ∃ e ∈ dmid.edges, e.src = inv ∧ e.dst = l' := by
      intro l' hl'
      obtain ⟨e, he, hs, hd⟩ := hex l' (List.mem_cons.mpr (Or.inr hl'))
      refine ⟨e, ?_, hs, hd⟩
      rw [hdmid]
      apply List.mem_filter.mpr
      refine ⟨he, ?_⟩
      simp only [decide_eq_true_eq]
      rintro ⟨_, hdl⟩
      exact hlnotin ((hd.symm.trans hdl) ▸ hl')
    obtain ⟨d2, hrec, hg, hip, hop, hsub, hkeep, hnotin⟩ := ih dmid hnd2 hex2
    refine ⟨d2, ?_, ?_, ?_, ?_, ?_, ?_, ?_⟩
    · unfold InvEliminator.removeLoadWires
      rw [hrw]
      exact hrec
    · rw [hg]
    · rw [hip]
    · rw [hop]
    · intro e he
      have := hsub e he
      rw [hdmid] at this
      exact (List.mem_filter.mp this).1
    · intro e he hne
      apply hkeep
      · rw [hdmid]
        apply List.mem_filter.mpr
        refine ⟨he, ?_⟩
        simp only [decide_eq_true_eq]
        rintro ⟨hs, _⟩
        exact hne hs
      · exact hne
    · intro e he hs
      rw [List.mem_cons]
      rintro (rfl | hmem)
      · have := hsub e he
        rw [hdmid] at this
        have h2 := (List.mem_filter.mp this).2
        simp only [decide_eq_true_eq] at h2
        exact h2 ⟨hs, by simp⟩
      · exact hnotin e he hs hmem

theorem getGate_isSome_mods (dX : Dag) (l : Nat) (ow nw w' : String) (x : Nat)
    (h : (dX.getGate x).isSome = true) :
    (((dX.replace_input_wire l ow nw).invert_input_wire l w').getGate x).isSome = true := by
  rw [getGate_invert_input, getGate_replace_input]
  by_cases hx : x = l
  · rw [if_pos hx, if_pos hx]
    cases hg : dX.getGate x with
    | none => rw [hg] at h; exact Bool.noConfusion h
    | some g => rfl
  · rw [if_neg hx, if_neg hx]
    exact h

theorem getGate_mods_ne (dX : Dag) (l : Nat) (ow nw w' : String) (x : Nat) (hx : x ≠ l) :
    ((dX.replace_input_wire l ow nw).invert_input_wire l w').getGate x = dX.getGate x := by
  rw [getGate_invert_input, if_neg hx, getGate_replace_input, if_neg hx]

theorem getGate_mods_outputs (dX : Dag) (l : Nat) (ow nw w' : String) (x : Nat) (g : Gate)
    (h : dX.getGate x = some g) :
    ∃ g', ((dX.replace_input_wire l ow nw).invert_input_wire l w').getGate x = some g' ∧
      g'.outputs = g.outputs := by
  rw [getGate_invert_input, getGate_replace_input]
  by_cases hx : x = l
  · rw [if_pos hx, if_pos hx, h]
    exact ⟨_, rfl, rfl⟩
  · rw [if_neg hx, if_neg hx, h]
    exact ⟨g, rfl, rfl⟩

theorem mem_shape_mods (dX : Dag) (l : Nat) (ow nw w' : String) (p' : Nat × Gate)
    (h : p' ∈ ((dX.replace_input_wire l ow nw).invert_input_wire l w').gates) :
    ∃ p ∈ dX.gates, p'.1 = p.1 ∧ p'.2.outputs = p.2.outputs := by
  unfold Dag.invert_input_wire Dag.replace_input_wire Dag.modifyGate at h
  dsimp only at h
  obtain ⟨q, hq, hq2⟩ := List.mem_map.mp h
  obtain ⟨p, hp, hp2⟩ := List.mem_map.mp hq
  refine ⟨p, hp, ?_⟩
  by_cases hc1 : p.1 = l
  · rw [if_pos hc1] at hp2
    by_cases hc2 : q.1 = l
    · rw [if_pos hc2] at hq2
      rw [← hq2, ← hp2]
      exact ⟨rfl, rfl⟩
    · rw [if_neg hc2] at hq2
      rw [← hq2, ← hp2]
      exact ⟨rfl, rfl⟩
  · rw [if_neg hc1] at hp2
    by_cases hc2 : q.1 = l
    · rw [if_pos hc2] at hq2
      rw [← hq2, ← hp2]
      exact ⟨rfl, rfl⟩
    · rw [if_neg hc2] at hq2
      rw [← hq2, ← hp2]
      exact ⟨rfl, rfl⟩

/-- The reconnection loop succeeds on any state satisfying its invariants:
the driver and all loads exist, every `i`-labelled edge leaves the driver,
only the driver holds `i` as an output pin, the driver does not hold `o`,
no edge carries `o` out of the driver, and every remaining load still
consumes `o`. -/
theorem xformLoads_ok_general (dbg driver : Nat) (i o : String) (ls : List Nat) :
    ∀ dcur, ls.Nodup →
      (dcur.getGate driver).isSome = true →
      (∀ l ∈ ls, (dcur.getGate l).isSome = true) →
      (∀ e ∈ dcur.edges, e.wire = i → e.src = driver) →
      (∀ p ∈ dcur.gates, i ∈ p.2.outputs → p.1 = driver) →
      (∀ p ∈ dcur.gates, p.1 = driver → o ∉ p.2.outputs) →
      (∀ e ∈ dcur.edges, ¬(e.src = driver ∧ e.wire = o)) →
      (∃ gd, dcur.getGate driver = some gd ∧ i ∈ gd.outputs) →
      (∀ l ∈ ls, ∃ gl, dcur.getGate l = some gl ∧ o ∈ gl.inputs) →
      ∃ r, InvEliminator.xformLoads dbg driver i o dcur ls = .ok r := by
  induction ls with
  | nil =>
    intro dcur _ _ _ _ _ _ _ _ _
    exact ⟨(dcur, []), rfl⟩
  | cons l ls ih =>
    intro dcur hnd hdrv hloads hA hB hC hD hF hI
    obtain ⟨gl, hgl, hglo⟩ := hI l (List.mem_cons_self _ _)
    obtain ⟨gd, hgd, hgdi⟩ := hF
    have hdmem : (driver, gd) ∈ dcur.gates := lookup_mem driver gd dcur.gates hgd
    have hio : i ≠ o := fun h => (hC (driver, gd) hdmem rfl) (h ▸ hgdi)
    have hlnotin := (List.nodup_cons.mp hnd).1
    have hnd2 := (List.nodup_cons.mp hnd).2
    have honames : o ∈ dcur.wire_names :=
      input_pin_mem dcur (l, gl) (lookup_mem l gl dcur.gates hgl) o hglo
    unfold InvEliminator.xformLoads
    rw [hgl]
    dsimp only
    by_cases hmem : i ∈ gl.inputs
    · rw [if_pos hmem]
      set fresh := dcur.uniqufy_wire_name (dcur.get_wire_base_name o ++ "_inv") with hfresh
      have hfr : fresh ∉ dcur.wire_names := hfresh ▸ uniqufy_not_mem dcur _
      have hnoop : dcur.replace_output_wire driver o fresh = dcur :=
        replace_output_noop dcur driver o fresh hC hD
      have hdup : ¬((∃ e ∈ dcur.edges, e.wire = fresh ∧ e.src ≠ driver) ∨
          (∃ p ∈ dcur.gates, fresh ∈ p.2.outputs ∧ p.1 ≠ driver)) := by
        rintro (⟨e, he, hew, _⟩ | ⟨p, hp, hpo, _⟩)
        · exact hfr (hew ▸ wire_of_edge_mem dcur e he)
        · exact hfr (output_pin_mem dcur p hp fresh hpo)
      have hadd := add_wire_ok_intro dcur fresh driver l hdrv
        (hloads l (List.mem_cons_self _ _)) hdup
      rw [hnoop, hadd]
      dsimp only
      set d4 : Dag := { dcur with edges := ⟨driver, l, fresh⟩ :: dcur.edges } with hd4
      set d6 : Dag := (d4.replace_input_wire l o fresh).invert_input_wire l fresh with hd6
      have hfne : fresh ≠ o := fun h => hfr (h ▸ honames)
      obtain ⟨r2, hrec⟩ := ih d6 hnd2
        (getGate_isSome_mods d4 l o fresh fresh driver hdrv)
        (fun l' hl' => getGate_isSome_mods d4 l o fresh fresh l'
          (hloads l' (List.mem_cons.mpr (Or.inr hl'))))
        (by
          intro e he
          rw [hd6, edges_invert_input, edges_replace_input] at he
          rcases List.mem_cons.mp he with rfl | he2
          · intro _; rfl
          · exact hA e he2)
        (by
          intro p hp hi
          obtain ⟨p0, hp0, hk, hout⟩ := mem_shape_mods d4 l o fresh fresh p hp
          rw [hk]
          exact hB p0 hp0 (hout ▸ hi))
        (by
          intro p hp hk
          obtain ⟨p0, hp0, hk0, hout⟩ := mem_shape_mods d4 l o fresh fresh p hp
          rw [hout]
          exact hC p0 hp0 (hk0 ▸ hk))
        (by
          intro e he
          rw [hd6, edges_invert_input, edges_replace_input] at he
          rcases List.mem_cons.mp he with rfl | he2
          · rintro ⟨_, hw⟩
            exact hfne hw
          · exact hD e he2)
        (by
          obtain ⟨gd', hgd', hout'⟩ := getGate_mods_outputs d4 l o fresh fresh driver gd hgd
          exact ⟨gd', hgd', hout' ▸ hgdi⟩)
        (fun l' hl' => by
          rw [hd6, getGate_mods_ne d4 l o fresh fresh l'
            (fun h => hlnotin (h ▸ hl'))]
          exact hI l' (List.mem_cons.mpr (Or.inr hl')))
      rw [hrec]
      exact ⟨(r2.1, (if dbg ≥ 2 then
        [s!"DAG-Transform: Both direct and inverted versions of {i} are connected to gate {l}. Renaming inverted wire."]
        else []) ++ r2.2), by rw [show r2 = (r2.1, r2.2) from rfl]⟩
    · rw [if_neg hmem]
      have hdup : ¬((∃ e ∈ dcur.edges, e.wire = i ∧ e.src ≠ driver) ∨
          (∃ p ∈ dcur.gates, i ∈ p.2.outputs ∧ p.1 ≠ driver)) := by
        rintro (⟨e, he, hew, hne⟩ | ⟨p, hp, hpo, hne⟩)
        · exact hne (hA e he hew)
        · exact hne (hB p hp hpo)
      have hadd := add_wire_ok_intro dcur i driver l hdrv
        (hloads l (List.mem_cons_self _ _)) hdup
      rw [hadd]
      dsimp only
      set d4 : Dag := { dcur with edges := ⟨driver, l, i⟩ :: dcur.edges } with hd4
      set d6 : Dag := (d4.replace_input_wire l o i).invert_input_wire l i with hd6
      obtain ⟨r2, hrec⟩ := ih d6 hnd2
        (getGate_isSome_mods d4 l o i i driver hdrv)
        (fun l' hl' => getGate_isSome_mods d4 l o i i l'
          (hloads l' (List.mem_cons.mpr (Or.inr hl'))))
        (by
          intro e he
          rw [hd6, edges_invert_input, edges_replace_input] at he
          rcases List.mem_cons.mp he with rfl | he2
          · intro _; rfl
          · exact hA e he2)
        (by
          intro p hp hi
          obtain ⟨p0, hp0, hk, hout⟩ := mem_shape_mods d4 l o i i p hp
          rw [hk]
          exact hB p0 hp0 (hout ▸ hi))
        (by
          intro p hp hk
          obtain ⟨p0, hp0, hk0, hout⟩ := mem_shape_mods d4 l o i i p hp
          rw [hout]
          exact hC p0 hp0 (hk0 ▸ hk))
        (by
          intro e he
          rw [hd6, edges_invert_input, edges_replace_input] at he
          rcases List.mem_cons.mp he with rfl | he2
          · rintro ⟨_, hw⟩
            exact hio hw
          · exact hD e he2)
        (by
          obtain ⟨gd', hgd', hout'⟩ := getGate_mods_outputs d4 l o i i driver gd hgd
          exact ⟨gd', hgd', hout' ▸ hgdi⟩)
        (fun l' hl' => by
          rw [hd6, getGate_mods_ne d4 l o i i l'
            (fun h => hlnotin (h ▸ hl'))]
          exact hI l' (List.mem_cons.mpr (Or.inr hl')))
      rw [hrec]
      exact ⟨(r2.1, r2.2), by rw [show r2 = (r2.1, r2.2) from rfl]⟩

/-! ## C8: no container error fires on a well-formed DAG -/

/-- C8: on a well-formed netlist DAG, the rewrite of any target gate
completes without reaching a Container-level error branch: the edges into
and out of the inverter are exactly the ones removed before `remove_gate`
(so GateStillConnectedError cannot fire), every removed edge exists, and
every `add_wire` call passes its duplicate/dangling checks — including
conflict-case loads, whose fresh names collide with nothing. -/
theorem C8_no_container_errors (dbg : Nat) (d : Dag) (rank : Nat → Nat) (id : Nat)
    (hwf : wellFormedB d rank = true)
    (htgt : InvEliminator.is_target_gate d id = true) :
    ∃ r, InvEliminator.run_xform_inv_elimination dbg d id = .ok r := by
  simp only [wellFormedB, Bool.and_eq_true] at hwf
  obtain ⟨⟨⟨⟨⟨⟨⟨⟨⟨⟨h1, h2⟩, h3⟩, h4⟩, h5⟩, h6⟩, h7⟩, h8⟩, h9⟩, h10⟩, h11⟩ := hwf
  unfold InvEliminator.is_target_gate at htgt
  cases hget : d.getGate id with
  | none => rw [hget] at htgt; exact Bool.noConfusion htgt
  | some g =>
    rw [hget] at htgt
    have hfunc : g.gate_func = "inv1" := of_decide_eq_true htgt
    have hgmem : (id, g) ∈ d.gates := lookup_mem id g d.gates hget
    have harity := wf_inv_arity d h9 (id, g) hgmem hfunc
    obtain ⟨i, hi⟩ := List.length_eq_one.mp harity.1
    obtain ⟨o, ho⟩ := List.length_eq_one.mp harity.2
    by_cases hskip : (d.is_in_port i || d.is_out_port i || d.is_out_port o) = true
    · exact ⟨(d, 0, []), xform_skip dbg d id g i o [] [] hget hi ho hskip⟩
    · rw [Bool.not_eq_true] at hskip
      have hipf : d.is_in_port i = false := by
        rcases Bool.or_eq_false_iff.mp hskip with ⟨hab, _⟩
        exact (Bool.or_eq_false_iff.mp hab).1
      obtain ⟨e0, he0, he0d, he0w⟩ := wf_pin_edge d h5 (id, g) hgmem i
        (by rw [hi]; exact List.mem_cons_self _ _) hipf
      have hfanin : d.get_wire_fanin_gate_ids i = [e0.src] := by
        unfold Dag.get_wire_fanin_gate_ids
        apply dedup_const
        · have : e0.src ∈ (d.edges.filter (fun e => decide (e.wire = i))).map Edge.src :=
            List.mem_map_of_mem Edge.src
              (List.mem_filter.mpr ⟨he0, by simp [he0w]⟩)
          intro hnil
          rw [hnil] at this
          exact List.not_mem_nil _ this
        · intro x hx
          obtain ⟨e, he, hex⟩ := List.mem_map.mp hx
          have hef := List.mem_filter.mp he
          have hew : e.wire = i := by simpa using hef.2
          rw [← hex]
          exact wf_unique_driver d h6 e hef.1 e0 he0 (hew.trans he0w.symm)
      have hR := xform_nonskip_eq dbg d id g i o [] [] hget hi ho hskip
      rw [hfanin] at hR
      have hlen1 : ([e0.src] : List Nat).length = 1 := rfl
      rw [if_pos hlen1] at hR
      have hD0 : ([e0.src].headD 0) = e0.src := rfl
      rw [hD0] at hR
      have hrank0 := wf_rank d rank h8 e0 he0
      have hsrcne : e0.src ≠ id := by
        intro hcon
        rw [hcon, he0d] at hrank0
        exact lt_irrefl _ hrank0
      have hrw1 := remove_wire_ok_intro d e0.src id ⟨e0, he0, rfl, he0d⟩
      rw [hrw1] at hR
      dsimp only at hR
      set F1 := d.edges.filter (fun e => decide (¬(e.src = e0.src ∧ e.dst = id))) with hF1
      set d1 : Dag := ({ gates := d.gates, edges := F1, in_ports := d.in_ports, out_ports := d.out_ports } : Dag) with hd1
      have hF1sub : ∀ e ∈ F1, e ∈ d.edges := by
        intro e he
        rw [hF1] at he
        exact (List.mem_filter.mp he).1
      have hloadsmem : ∀ l ∈ d.get_wire_fanout_gate_ids o,
          ∃ e ∈ d.edges, e.wire = o ∧ e.dst = l ∧ e.src = id := by
        intro l hl
        unfold Dag.get_wire_fanout_gate_ids at hl
        rw [List.mem_dedup] at hl
        obtain ⟨e, he, hed⟩ := List.mem_map.mp hl
        have hef := List.mem_filter.mp he
        have hew : e.wire = o := by simpa using hef.2
        refine ⟨e, hef.1, hew, hed, ?_⟩
        exact wf_edge_pin_agree d h7 e hef.1 (id, g) hgmem
          (by rw [hew, ho]; exact List.mem_cons_self _ _)
      obtain ⟨d2, hrlw, hg2, hip2, hop2, hsub2, hkeep2, hnotin2⟩ :=
        removeLoadWires_ok_general id (d.get_wire_fanout_gate_ids o) d1
          (List.nodup_dedup _)
          (by
            intro l hl
            obtain ⟨e, he, hew, hed, hes⟩ := hloadsmem l hl
            refine ⟨e, ?_, hes, hed⟩
            rw [hd1]
            dsimp only
            rw [hF1]
            apply List.mem_filter.mpr
            refine ⟨he, ?_⟩
            simp only [decide_eq_true_eq]
            rintro ⟨hs, _⟩
            exact hsrcne (hs ▸ hes.symm ▸ rfl))
      rw [hrlw] at hR
      dsimp only at hR
      have hg2d : d2.gates = d.gates := by
        rw [hg2, hd1]
      have hconn : ¬ ∃ e ∈ d2.edges, e.src = id ∨ e.dst = id := by
        rintro ⟨e, he, htouch⟩
        have heF1 : e ∈ F1 := by
          have := hsub2 e he
          rw [hd1] at this
          exact this
        have hed : e ∈ d.edges := hF1sub e heF1
        rcases htouch with hsrc | hdst
        · have hwo : e.wire = o := by
            have := wf_src_pin d h3 e hed g (by rw [hsrc]; exact hget)
            rw [ho] at this
            simpa using this
          have hdst2 : e.dst ∈ d.get_wire_fanout_gate_ids o := by
            unfold Dag.get_wire_fanout_gate_ids
            rw [List.mem_dedup]
            exact List.mem_map_of_mem Edge.dst (List.mem_filter.mpr ⟨hed, by simp [hwo]⟩)
          exact hnotin2 e he hsrc hdst2
        · have hwi : e.wire = i := by
            have := wf_dst_pin d h4 e hed g (by rw [hdst]; exact hget)
            rw [hi] at this
            simpa using this
          have hes : e.src = e0.src :=
            wf_unique_driver d h6 e hed e0 he0 (hwi.trans he0w.symm)
          rw [hF1] at heF1
          have := (List.mem_filter.mp heF1).2
          simp only [decide_eq_true_eq] at this
          exact this ⟨hes, hdst⟩
      have hsome2 : (d2.getGate id).isSome = true := by
        unfold Dag.getGate
        rw [hg2d]
        rw [show List.lookup id d.gates = d.getGate id from rfl, hget]
        rfl
      have hrg := remove_gate_ok_intro d2 id hconn hsome2
      rw [hrg] at hR
      dsimp only at hR
      set d3 : Dag := { d2 with gates := d2.gates.filter (fun p => decide (p.1 ≠ id)) } with hd3
      have hgate3 : ∀ x, x ≠ id → d3.getGate x = d.getGate x := by
        intro x hx
        rw [hd3]
        show List.lookup x (d2.gates.filter (fun p => decide (p.1 ≠ id))) = d.getGate x
        rw [hg2d, getGate_removeKey d id x, if_neg hx]
      have hmem3 : ∀ p ∈ d3.gates, p ∈ d.gates ∧ p.1 ≠ id := by
        intro p hp
        rw [hd3] at hp
        dsimp only at hp
        have h := List.mem_filter.mp hp
        rw [hg2d] at h
        exact ⟨h.1, by simpa using h.2⟩
      have hedges3 : ∀ e ∈ d3.edges, e ∈ d.edges := by
        intro e he
        rw [hd3] at he
        dsimp only at he
        apply hF1sub
        have := hsub2 e he
        rw [hd1] at this
        exact this
      have hgd : ∃ gd, d.getGate e0.src = some gd ∧ i ∈ gd.outputs := by
        have hs := (wf_endpoints d h2 e0 he0).1
        cases hgds : d.getGate e0.src with
        | none => rw [hgds] at hs; exact Bool.noConfusion hs
        | some gd =>
          refine ⟨gd, rfl, ?_⟩
          have := wf_src_pin d h3 e0 he0 gd hgds
          rw [he0w] at this
          exact this
      obtain ⟨gd, hgdeq, hgdi⟩ := hgd
      obtain ⟨r, hxf⟩ := xformLoads_ok_general dbg e0.src i o
        (d.get_wire_fanout_gate_ids o) d3
        (List.nodup_dedup _)
        (by rw [hgate3 e0.src hsrcne, hgdeq]; rfl)
        (by
          intro l hl
          obtain ⟨e, he, hew, hed, hes⟩ := hloadsmem l hl
          have hlne : l ≠ id := by
            intro hcon
            have := wf_rank d rank h8 e he
            rw [hes, hed, hcon] at this
            exact lt_irrefl _ this
          rw [hgate3 l hlne]
          have := (wf_endpoints d h2 e he).2
          rw [hed] at this
          exact this)
        (by
          intro e he hew
          exact wf_unique_driver d h6 e (hedges3 e he) e0 he0 (hew.trans he0w.symm))
        (by
          intro p hp hio
          have hpd := (hmem3 p hp).1
          exact (wf_edge_pin_agree d h7 e0 he0 p hpd (he0w ▸ hio)).symm)
        (by
          intro p hp hpk
          have hpd := hmem3 p hp
          intro hoo
          apply hpd.2
          exact wf_pin_driver_unique d h10 p hpd.1 (id, g) hgmem o hoo
            (by rw [ho]; exact List.mem_cons_self _ _))
        (by
          rintro e he ⟨hes, hew⟩
          have hed := hedges3 e he
          have := wf_edge_pin_agree d h7 e hed (id, g) hgmem
            (by rw [hew, ho]; exact List.mem_cons_self _ _)
          exact hsrcne (hes ▸ this ▸ rfl))
        (⟨gd, by rw [hgate3 e0.src hsrcne]; exact hgdeq, hgdi⟩)
        (by
          intro l hl
          obtain ⟨e, he, hew, hed, hes⟩ := hloadsmem l hl
          have hlne : l ≠ id := by
            intro hcon
            have := wf_rank d rank h8 e he
            rw [hes, hed, hcon] at this
            exact lt_irrefl _ this
          have hsomel := (wf_endpoints d h2 e he).2
          rw [hed] at hsomel
          cases hgl : d.getGate l with
          | none => rw [hgl] at hsomel; exact Bool.noConfusion hsomel
          | some gl =>
            refine ⟨gl, by rw [hgate3 l hlne]; exact hgl, ?_⟩
            have := wf_dst_pin d h4 e he gl (by rw [hed]; exact hgl)
            rw [hew] at this
            exact this)
      rw [hxf] at hR
      exact ⟨_, hR⟩

/-- C8 witness: `conflictDag` is well formed (ranked by gate id) and the
rewrite of its inverter — which takes the conflict branch — succeeds. -/
theorem C8_no_container_errors_witness :
    ∃ r, InvEliminator.run_xform_inv_elimination 0 conflictDag 1 = .ok r :=
  C8_no_container_errors 0 conflictDag (fun n => n) 1 (by decide) (by rfl)

/-! ## C5: pin evolution across the pass -/

theorem wf_out_not_in_port (d : Dag) (h : wfOutNotInPort d = true) :
    ∀ p ∈ d.gates, ∀ w ∈ p.2.outputs, d.is_in_port w = false := by
  intro p hp w hw
  have := List.all_eq_true.mp (List.all_eq_true.mp h p hp) w hw
  simpa using this

/-- No gate output names an input port (an invariant the pass keeps). -/
def OutNotIn (d : Dag) : Prop :=
  ∀ p ∈ d.gates, ∀ w ∈ p.2.outputs, d.is_in_port w = false

/-- A target inverter that the port check will always skip. -/
def SkipStable (d : Dag) (g : Gate) : Prop :=
  ∃ i irest o orest, g.inputs = i :: irest ∧ g.outputs = o :: orest ∧
    (d.is_in_port i || d.is_out_port i || d.is_out_port o) = true

/-- How one rewrite step may change a surviving gate: the function label
is kept, the head input pin is either kept or renamed away from a
non-port name, and the head output pin is either kept or renamed away
from a non-output-port name. -/
def HeadRel (d : Dag) (g g' : Gate) : Prop :=
  g'.gate_func = g.gate_func ∧
  (∀ i0 r, g.inputs = i0 :: r → ∃ i0' r', g'.inputs = i0' :: r' ∧
    (i0' = i0 ∨ (d.is_in_port i0 = false ∧ d.is_out_port i0 = false))) ∧
  (∀ o0 r, g.outputs = o0 :: r → ∃ o0' r', g'.outputs = o0' :: r' ∧
    (o0' = o0 ∨ d.is_out_port o0 = false))

theorem HeadRel_refl (d : Dag) (g : Gate) : HeadRel d g g :=
  ⟨rfl, fun i0 r h => ⟨i0, r, h, Or.inl rfl⟩, fun o0 r h => ⟨o0, r, h, Or.inl rfl⟩⟩

theorem HeadRel_trans (d d2 : Dag) (g g1 g2 : Gate)
    (hip : d2.in_ports = d.in_ports) (hop : d2.out_ports = d.out_ports)
    (h1 : HeadRel d g g1) (h2 : HeadRel d2 g1 g2) : HeadRel d g g2 := by
  obtain ⟨hf1, hi1, ho1⟩ := h1
  obtain ⟨hf2, hi2, ho2⟩ := h2
  refine ⟨hf2.trans hf1, ?_, ?_⟩
  · intro i0 r h
    obtain ⟨i1, r1, hg1, hc1⟩ := hi1 i0 r h
    obtain ⟨i2, r2, hg2, hc2⟩ := hi2 i1 r1 hg1
    refine ⟨i2, r2, hg2, ?_⟩
    rcases hc1 with rfl | hc1
    · rcases hc2 with rfl | hc2
      · exact Or.inl rfl
      · refine Or.inr ?_
        unfold Dag.is_in_port Dag.is_out_port at hc2 ⊢
        rw [hip, hop] at hc2
        exact hc2
    · exact Or.inr hc1
  · intro o0 r h
    obtain ⟨o1, r1, hg1, hc1⟩ := ho1 o0 r h
    obtain ⟨o2, r2, hg2, hc2⟩ := ho2 o1 r1 hg1
    refine ⟨o2, r2, hg2, ?_⟩
    rcases hc1 with rfl | hc1
    · rcases hc2 with rfl | hc2
      · exact Or.inl rfl
      · refine Or.inr ?_
        unfold Dag.is_out_port at hc2 ⊢
        rw [hop] at hc2
        exact hc2
    · exact Or.inr hc1

theorem SkipStable_transfer (d d' : Dag) (g g' : Gate)
    (hip : d'.in_ports = d.in_ports) (hop : d'.out_ports = d.out_ports)
    (hs : SkipStable d g) (hr : HeadRel d g g') : SkipStable d' g' := by
  obtain ⟨i, irest, o, orest, hgi, hgo, hcond⟩ := hs
  obtain ⟨_, hin, hout⟩ := hr
  obtain ⟨i', ir', hgi', hci⟩ := hin i irest hgi
  obtain ⟨o', or', hgo', hco⟩ := hout o orest hgo
  have hipw : ∀ w, d'.is_in_port w = d.is_in_port w := by
    intro w
    unfold Dag.is_in_port
    rw [hip]
  have hopw : ∀ w, d'.is_out_port w = d.is_out_port w := by
    intro w
    unfold Dag.is_out_port
    rw [hop]
  refine ⟨i', ir', o', or', hgi', hgo', ?_⟩
  rcases Bool.or_eq_true_iff.mp hcond with hab | hc
  · rcases Bool.or_eq_true_iff.mp hab with ha | hb
    · rcases hci with rfl | ⟨hf1, _⟩
      · rw [hipw, ha]
        rfl
      · rw [hf1] at ha
        exact Bool.noConfusion ha
    · rcases hci with rfl | ⟨_, hf2⟩
      · rw [hipw, hopw, hb]
        simp
      · rw [hf2] at hb
        exact Bool.noConfusion hb
  · rcases hco with rfl | hf3
    · rw [hopw o', hc]
      simp
    · rw [hf3] at hc
      exact Bool.noConfusion hc

theorem is_in_port_congr (d d' : Dag) (h : d'.in_ports = d.in_ports) (w : String) :
    d'.is_in_port w = d.is_in_port w := by
  unfold Dag.is_in_port
  rw [h]

theorem is_out_port_congr (d d' : Dag) (h : d'.out_ports = d.out_ports) (w : String) :
    d'.is_out_port w = d.is_out_port w := by
  unfold Dag.is_out_port
  rw [h]

theorem in_port_mem_names (d : Dag) (w : String) (h : w ∈ d.in_ports) :
    w ∈ d.wire_names := by
  unfold Dag.wire_names
  simp only [List.mem_append]
  tauto

theorem not_mem_names_in_port (d : Dag) (w : String) (h : w ∉ d.wire_names) :
    d.is_in_port w = false := by
  unfold Dag.is_in_port
  simp only [decide_eq_false_iff_not]
  intro hmem
  exact h (in_port_mem_names d w hmem)

theorem renameIn_mem_cases (ow nw w : String) (l : List String)
    (h : w ∈ Dag.renameIn ow nw l) : w ∈ l ∨ w = nw := by
  unfold Dag.renameIn at h
  obtain ⟨a, ha, hw⟩ := List.mem_map.mp h
  by_cases hc : a = ow
  · rw [if_pos hc] at hw
    exact Or.inr hw.symm
  · rw [if_neg hc] at hw
    exact Or.inl (hw ▸ ha)

/-- Any gate obtained by renaming the eliminated wire `ow` (never a port)
in the pin lists stands in the head-transfer relation to the original. -/
theorem HeadRel_master (d : Dag) (g g' : Gate) (ow nwi nwo : String)
    (h1 : d.is_in_port ow = false) (h2 : d.is_out_port ow = false)
    (hf : g'.gate_func = g.gate_func)
    (hi : g'.inputs = g.inputs ∨ g'.inputs = Dag.renameIn ow nwi g.inputs)
    (ho : g'.outputs = g.outputs ∨ g'.outputs = Dag.renameIn ow nwo g.outputs) :
    HeadRel d g g' := by
  refine ⟨hf, ?_, ?_⟩
  · intro i0 r h
    rcases hi with hi | hi
    · exact ⟨i0, r, hi.trans h, Or.inl rfl⟩
    · refine ⟨if i0 = ow then nwi else i0, Dag.renameIn ow nwi r, ?_, ?_⟩
      · rw [hi, h]
        rfl
      · by_cases hc : i0 = ow
        · refine Or.inr ?_
          rw [hc]
          exact ⟨h1, h2⟩
        · rw [if_neg hc]
          exact Or.inl rfl
  · intro o0 r h
    rcases ho with ho | ho
    · exact ⟨o0, r, ho.trans h, Or.inl rfl⟩
    · refine ⟨if o0 = ow then nwo else o0, Dag.renameIn ow nwo r, ?_, ?_⟩
      · rw [ho, h]
        rfl
      · by_cases hc : o0 = ow
        · refine Or.inr ?_
          rw [hc]
          exact h2
        · rw [if_neg hc]
          exact Or.inl rfl

/-- Gate-level effect of one reconnection composite (input rename plus
invert flag) on any gate id. -/
theorem getGate_mods_all (dX : Dag) (l : Nat) (ow nw w' : String) (x : Nat) (g6 : Gate)
    (h : ((dX.replace_input_wire l ow nw).invert_input_wire l w').getGate x = some g6) :
    ∃ g, dX.getGate x = some g ∧ g6.gate_func = g.gate_func ∧
      (g6.inputs = g.inputs ∨ g6.inputs = Dag.renameIn ow nw g.inputs) ∧
      g6.outputs = g.outputs := by
  rw [getGate_invert_input, getGate_replace_input] at h
  by_cases hxl : x = l
  · rw [if_pos hxl, if_pos hxl] at h
    cases hgc : dX.getGate x with
    | none =>
      rw [hgc] at h
      simp only [Option.map_none'] at h
      exact Option.noConfusion h
    | some g =>
      rw [hgc] at h
      simp only [Option.map_some'] at h
      injection h with h
      refine ⟨g, rfl, ?_, Or.inr ?_, ?_⟩
      · rw [← h]
      · rw [← h]
      · rw [← h]
  · rw [if_neg hxl, if_neg hxl] at h
    exact ⟨g6, h, rfl, Or.inl rfl, rfl⟩

/-- Gate-level effect of `replace_output_wire` on any gate id. -/
theorem getGate_replace_output_all (dX : Dag) (idr : Nat) (ow nw : String) (x : Nat)
    (gR : Gate) (h : (dX.replace_output_wire idr ow nw).getGate x = some gR) :
    ∃ g, dX.getGate x = some g ∧ gR.gate_func = g.gate_func ∧ gR.inputs = g.inputs ∧
      (gR.outputs = g.outputs ∨ gR.outputs = Dag.renameIn ow nw g.outputs) := by
  rw [getGate_replace_output] at h
  by_cases hx : x = idr
  · rw [if_pos hx] at h
    cases hgc : dX.getGate x with
    | none =>
      rw [hgc] at h
      simp only [Option.map_none'] at h
      exact Option.noConfusion h
    | some g =>
      rw [hgc] at h
      simp only [Option.map_some'] at h
      injection h with h
      refine ⟨g, rfl, ?_, ?_, Or.inr ?_⟩
      · rw [← h]
      · rw [← h]
      · rw [← h]
  · rw [if_neg hx] at h
    exact ⟨gR, h, rfl, rfl, Or.inl rfl⟩

theorem mem_shape_replace_output (dX : Dag) (idr : Nat) (ow nw : String) (p' : Nat × Gate)
    (h : p' ∈ (dX.replace_output_wire idr ow nw).gates) :
    ∃ p ∈ dX.gates, p'.1 = p.1 ∧
      (p'.2.outputs = p.2.outputs ∨ p'.2.outputs = Dag.renameIn ow nw p.2.outputs) := by
  unfold Dag.replace_output_wire Dag.modifyGate at h
  dsimp only at h
  obtain ⟨p, hp, hp2⟩ := List.mem_map.mp h
  by_cases hc : p.1 = idr
  · rw [if_pos hc] at hp2
    refine ⟨p, hp, ?_, Or.inr ?_⟩
    · rw [← hp2]
    · rw [← hp2]
  · rw [if_neg hc] at hp2
    refine ⟨p, hp, ?_, Or.inl ?_⟩
    · rw [← hp2]
    · rw [← hp2]

theorem removeLoadWires_ok_ports (inv : Nat) (ls : List Nat) :
    ∀ d d', InvEliminator.removeLoadWires inv d ls = .ok d' →
      d'.in_ports = d.in_ports ∧ d'.out_ports = d.out_ports := by
  induction ls with
  | nil =>
    intro d d' h
    simp only [InvEliminator.removeLoadWires] at h
    injection h with h2
    rw [← h2]
    exact ⟨rfl, rfl⟩
  | cons l ls ih =>
    intro d d' h
    unfold InvEliminator.removeLoadWires at h
    cases hrw : d.remove_wire inv l with
    | error e => rw [hrw] at h; exact Except.noConfusion h
    | ok d2 =>
      rw [hrw] at h
      have h2 := (remove_wire_ok_eq d inv l d2 hrw).1
      obtain ⟨hip, hop⟩ := ih d2 d' h
      rw [hip, hop, h2]
      exact ⟨rfl, rfl⟩

theorem ports_invert_input (d : Dag) (id : Nat) (w : String) :
    (d.invert_input_wire id w).in_ports = d.in_ports ∧
    (d.invert_input_wire id w).out_ports = d.out_ports := ⟨rfl, rfl⟩

theorem ports_replace_output (d : Dag) (id : Nat) (ow nw : String) :
    (d.replace_output_wire id ow nw).in_ports = d.in_ports ∧
    (d.replace_output_wire id ow nw).out_ports = d.out_ports := ⟨rfl, rfl⟩

/-- Through a successful reconnection loop the ports never change, every
surviving gate descends from an entry gate by head-preserving renames of
the eliminated wire, and no gate output ever becomes an input port. -/
theorem xformLoads_transfer (dbg driver : Nat) (i o : String) (ls : List Nat) :
    ∀ dc d' lg, dc.is_in_port o = false → dc.is_out_port o = false → OutNotIn dc →
      InvEliminator.xformLoads dbg driver i o dc ls = .ok (d', lg) →
      d'.in_ports = dc.in_ports ∧ d'.out_ports = dc.out_ports ∧
      (∀ x g', d'.getGate x = some g' → ∃ g, dc.getGate x = some g ∧ HeadRel dc g g') ∧
      OutNotIn d' := by
  induction ls with
  | nil =>
    intro dc d' lg _ _ hni h
    simp only [InvEliminator.xformLoads] at h
    injection h with h2
    injection h2 with ha hb
    rw [← ha]
    exact ⟨rfl, rfl, fun x g' hx => ⟨g', hx, HeadRel_refl dc g'⟩, hni⟩
  | cons l ls ih =>
    intro dc d' lg hino houto hni h
    unfold InvEliminator.xformLoads at h
    cases hget : dc.getGate l with
    | none => rw [hget] at h; exact Except.noConfusion h
    | some gl =>
      rw [hget] at h
      by_cases hmem : i ∈ gl.inputs
      · simp only [hmem, if_true] at h
        cases hadd : (dc.replace_output_wire driver o
            (dc.uniqufy_wire_name (dc.get_wire_base_name o ++ "_inv"))).add_wire
            (dc.uniqufy_wire_name (dc.get_wire_base_name o ++ "_inv")) driver l with
        | error e => rw [hadd] at h; exact Except.noConfusion h
        | ok d2 =>
          rw [hadd] at h
          dsimp only at h
          set fresh := dc.uniqufy_wire_name (dc.get_wire_base_name o ++ "_inv") with hfresh
          set d6 : Dag := (d2.replace_input_wire l o fresh).invert_input_wire l fresh with hd6
          cases hrec : InvEliminator.xformLoads dbg driver i o d6 ls with
          | error e => rw [hrec] at h; exact Except.noConfusion h
          | ok r =>
            rw [hrec] at h
            obtain ⟨d5, lg5⟩ := r
            dsimp only at h
            injection h with h2
            injection h2 with ha hb
            have hd2 := (add_wire_ok_eq _ _ _ _ _ hadd).1
            have hd2g : d2.gates = (dc.replace_output_wire driver o fresh).gates := by
              rw [hd2]
            have hd2ip : d2.in_ports = dc.in_ports := by
              rw [hd2]
              exact (ports_replace_output dc driver o fresh).1
            have hd2op : d2.out_ports = dc.out_ports := by
              rw [hd2]
              exact (ports_replace_output dc driver o fresh).2
            have hd6ip : d6.in_ports = dc.in_ports := hd2ip
            have hd6op : d6.out_ports = dc.out_ports := hd2op
            have hfrne : fresh ∉ dc.wire_names := by
              rw [hfresh]
              exact uniqufy_not_mem dc _
            have hfreshin : dc.is_in_port fresh = false := not_mem_names_in_port dc fresh hfrne
            have hni6 : OutNotIn d6 := by
              intro p' hp' w hw
              rw [is_in_port_congr dc d6 hd6ip w]
              rw [hd6] at hp'
              obtain ⟨p2, hp2, hk2, hout2⟩ := mem_shape_mods d2 l o fresh fresh p' hp'
              have hp2' : p2 ∈ (dc.replace_output_wire driver o fresh).gates := by
                rw [← hd2g]
                exact hp2
              obtain ⟨p, hp, hkp, houts⟩ := mem_shape_replace_output dc driver o fresh p2 hp2'
              rcases houts with he | he
              · refine hni p hp w ?_
                rw [← he, ← hout2]
                exact hw
              · have hw2 : w ∈ Dag.renameIn o fresh p.2.outputs := by
                  rw [← he, ← hout2]
                  exact hw
                rcases renameIn_mem_cases o fresh w p.2.outputs hw2 with hin | rfl
                · exact hni p hp w hin
                · exact hfreshin
            have hino6 : d6.is_in_port o = false := by
              rw [is_in_port_congr dc d6 hd6ip o]
              exact hino
            have houto6 : d6.is_out_port o = false := by
              rw [is_out_port_congr dc d6 hd6op o]
              exact houto
            obtain ⟨hip5, hop5, htr5, hni5⟩ := ih d6 d5 lg5 hino6 houto6 hni6 hrec
            rw [← ha]
            refine ⟨hip5.trans hd6ip, hop5.trans hd6op, ?_, hni5⟩
            intro x g'' hx
            obtain ⟨g6, hg6, hr6⟩ := htr5 x g'' hx
            rw [hd6] at hg6
            obtain ⟨g2, hg2, hf2, hi2, ho2⟩ := getGate_mods_all d2 l o fresh fresh x g6 hg6
            rw [getGate_gates_eq (dc.replace_output_wire driver o fresh) d2 hd2g x] at hg2
            obtain ⟨g, hg, hfR, hiR, hoR⟩ := getGate_replace_output_all dc driver o fresh x g2 hg2
            refine ⟨g, hg, HeadRel_trans dc d6 g g6 g'' hd6ip hd6op ?_ hr6⟩
            refine HeadRel_master dc g g6 o fresh fresh hino houto (hf2.trans hfR) ?_ ?_
            · rcases hi2 with hi2 | hi2
              · exact Or.inl (hi2.trans hiR)
              · refine Or.inr ?_
                rw [hi2, hiR]
            · rcases hoR with hoR | hoR
              · exact Or.inl (ho2.trans hoR)
              · exact Or.inr (ho2.trans hoR)
      · simp only [hmem, if_false] at h
        cases hadd : dc.add_wire i driver l with
        | error e => rw [hadd] at h; exact Except.noConfusion h
        | ok d2 =>
          rw [hadd] at h
          dsimp only at h
          set d6 : Dag := (d2.replace_input_wire l o i).invert_input_wire l i with hd6
          cases hrec : InvEliminator.xformLoads dbg driver i o d6 ls with
          | error e => rw [hrec] at h; exact Except.noConfusion h
          | ok r =>
            rw [hrec] at h
            obtain ⟨d5, lg5⟩ := r
            dsimp only at h
            injection h with h2
            injection h2 with ha hb
            have hd2 := (add_wire_ok_eq _ _ _ _ _ hadd).1
            have hd2g : d2.gates = dc.gates := by
              rw [hd2]
            have hd2ip : d2.in_ports = dc.in_ports := by
              rw [hd2]
            have hd2op : d2.out_ports = dc.out_ports := by
              rw [hd2]
            have hd6ip : d6.in_ports = dc.in_ports := hd2ip
            have hd6op : d6.out_ports = dc.out_ports := hd2op
            have hni6 : OutNotIn d6 := by
              intro p' hp' w hw
              rw [is_in_port_congr dc d6 hd6ip w]
              rw [hd6] at hp'
              obtain ⟨p2, hp2, hk2, hout2⟩ := mem_shape_mods d2 l o i i p' hp'
              have hp2' : p2 ∈ dc.gates := by
                rw [← hd2g]
                exact hp2
              refine hni p2 hp2' w ?_
              rw [← hout2]
              exact hw
            have hino6 : d6.is_in_port o = false := by
              rw [is_in_port_congr dc d6 hd6ip o]
              exact hino
            have houto6 : d6.is_out_port o = false := by
              rw [is_out_port_congr dc d6 hd6op o]
              exact houto
            obtain ⟨hip5, hop5, htr5, hni5⟩ := ih d6 d5 lg5 hino6 houto6 hni6 hrec
            rw [← ha]
            refine ⟨hip5.trans hd6ip, hop5.trans hd6op, ?_, hni5⟩
            intro x g'' hx
            obtain ⟨g6, hg6, hr6⟩ := htr5 x g'' hx
            rw [hd6] at hg6
            obtain ⟨g2, hg2, hf2, hi2, ho2⟩ := getGate_mods_all d2 l o i i x g6 hg6
            rw [getGate_gates_eq dc d2 hd2g x] at hg2
            refine ⟨g2, hg2, HeadRel_trans dc d6 g2 g6 g'' hd6ip hd6op ?_ hr6⟩
            exact HeadRel_master dc g2 g6 o i i hino houto hf2 hi2 (Or.inl ho2)

/-- A successful rewrite with count 0 is exactly a port skip: the DAG is
returned unchanged and the gate's head pins satisfy the skip condition. -/
theorem run_xform_ok_zero (dbg : Nat) (d : Dag) (id : Nat) (d' : Dag) (lg : List String)
    (h : InvEliminator.run_xform_inv_elimination dbg d id = .ok (d', 0, lg)) :
    d' = d ∧ ∃ g, d.getGate id = some g ∧ SkipStable d g := by
  cases hget : d.getGate id with
  | none => rw [xform_noGate dbg d id hget] at h; exact Except.noConfusion h
  | some g =>
    cases hi : g.inputs with
    | nil => rw [xform_nil_pins dbg d id g hget (Or.inl hi)] at h; exact Except.noConfusion h
    | cons i irest =>
      cases ho : g.outputs with
      | nil => rw [xform_nil_pins dbg d id g hget (Or.inr ho)] at h; exact Except.noConfusion h
      | cons o orest =>
        by_cases hskip : (d.is_in_port i || d.is_out_port i || d.is_out_port o) = true
        · rw [xform_skip dbg d id g i o irest orest hget hi ho hskip] at h
          injection h with h2
          injection h2 with ha hb
          refine ⟨ha.symm, g, rfl, ?_⟩
          exact ⟨i, irest, o, orest, hi, ho, hskip⟩
        · rw [Bool.not_eq_true] at hskip
          rw [xform_nonskip_eq dbg d id g i o irest orest hget hi ho hskip] at h
          by_cases hlen : (d.get_wire_fanin_gate_ids i).length = 1
          · rw [if_pos hlen] at h
            cases hrw : d.remove_wire ((d.get_wire_fanin_gate_ids i).headD 0) id with
            | error e => rw [hrw] at h; exact Except.noConfusion h
            | ok d1 =>
              rw [hrw] at h
              dsimp only at h
              cases hrem : InvEliminator.removeLoadWires id d1 (d.get_wire_fanout_gate_ids o) with
              | error e => rw [hrem] at h; exact Except.noConfusion h
              | ok d2 =>
                rw [hrem] at h
                dsimp only at h
                cases hrg : d2.remove_gate id with
                | error e => rw [hrg] at h; exact Except.noConfusion h
                | ok d3 =>
                  rw [hrg] at h
                  dsimp only at h
                  cases hxf : InvEliminator.xformLoads dbg ((d.get_wire_fanin_gate_ids i).headD 0)
                      i o d3 (d.get_wire_fanout_gate_ids o) with
                  | error e => rw [hxf] at h; exact Except.noConfusion h
                  | ok r =>
                    rw [hxf] at h
                    obtain ⟨d4, lg1⟩ := r
                    dsimp only at h
                    injection h with h2
                    injection h2 with ha hb
                    injection hb with hk _
                    exact absurd hk one_ne_zero
          · rw [if_neg hlen] at h; exact Except.noConfusion h

/-- Through one successful per-gate rewrite the ports never change, every
surviving gate descends from an input gate by head-preserving renames, and
the no-output-names-an-input-port invariant is kept. -/
theorem run_xform_transfer (dbg : Nat) (dc : Dag) (id : Nat) (d' : Dag) (k : Nat)
    (lg : List String) (hni : OutNotIn dc)
    (h : InvEliminator.run_xform_inv_elimination dbg dc id = .ok (d', k, lg)) :
    d'.in_ports = dc.in_ports ∧ d'.out_ports = dc.out_ports ∧
    (∀ x g', d'.getGate x = some g' → ∃ g, dc.getGate x = some g ∧ HeadRel dc g g') ∧
    OutNotIn d' := by
  cases hget : dc.getGate id with
  | none => rw [xform_noGate dbg dc id hget] at h; exact Except.noConfusion h
  | some g =>
    cases hi : g.inputs with
    | nil => rw [xform_nil_pins dbg dc id g hget (Or.inl hi)] at h; exact Except.noConfusion h
    | cons i irest =>
      cases ho : g.outputs with
      | nil => rw [xform_nil_pins dbg dc id g hget (Or.inr ho)] at h; exact Except.noConfusion h
      | cons o orest =>
        by_cases hskip : (dc.is_in_port i || dc.is_out_port i || dc.is_out_port o) = true
        · rw [xform_skip dbg dc id g i o irest orest hget hi ho hskip] at h
          injection h with h2
          injection h2 with ha hb
          rw [← ha]
          exact ⟨rfl, rfl, fun x g' hx => ⟨g', hx, HeadRel_refl dc g'⟩, hni⟩
        · rw [Bool.not_eq_true] at hskip
          have houto : dc.is_out_port o = false := (Bool.or_eq_false_iff.mp hskip).2
          have hino : dc.is_in_port o = false :=
            hni (id, g) (lookup_mem id g dc.gates hget) o
              (by rw [ho]; exact List.mem_cons_self _ _)
          rw [xform_nonskip_eq dbg dc id g i o irest orest hget hi ho hskip] at h
          by_cases hlen : (dc.get_wire_fanin_gate_ids i).length = 1
          · rw [if_pos hlen] at h
            cases hrw : dc.remove_wire ((dc.get_wire_fanin_gate_ids i).headD 0) id with
            | error e => rw [hrw] at h; exact Except.noConfusion h
            | ok d1 =>
              rw [hrw] at h
              dsimp only at h
              have hd1 := (remove_wire_ok_eq _ _ _ _ hrw).1
              cases hrem : InvEliminator.removeLoadWires id d1 (dc.get_wire_fanout_gate_ids o) with
              | error e => rw [hrem] at h; exact Except.noConfusion h
              | ok d2 =>
                rw [hrem] at h
                dsimp only at h
                have hg2 : d2.gates = d1.gates := removeLoadWires_ok_gates _ _ _ _ hrem
                obtain ⟨hip2, hop2⟩ := removeLoadWires_ok_ports _ _ _ _ hrem
                cases hrg : d2.remove_gate id with
                | error e => rw [hrg] at h; exact Except.noConfusion h
                | ok d3 =>
                  rw [hrg] at h
                  dsimp only at h
                  have hd3 := (remove_gate_ok_eq _ _ _ hrg).1
                  cases hxf : InvEliminator.xformLoads dbg
                      ((dc.get_wire_fanin_gate_ids i).headD 0) i o d3
                      (dc.get_wire_fanout_gate_ids o) with
                  | error e => rw [hxf] at h; exact Except.noConfusion h
                  | ok r =>
                    rw [hxf] at h
                    obtain ⟨d4, lg1⟩ := r
                    dsimp only at h
                    injection h with h2
                    injection h2 with ha hb
                    have hip1 : d1.in_ports = dc.in_ports := by rw [hd1]
                    have hop1 : d1.out_ports = dc.out_ports := by rw [hd1]
                    have hg1 : d1.gates = dc.gates := by rw [hd1]
                    have hip3 : d3.in_ports = dc.in_ports := by
                      rw [hd3]
                      exact hip2.trans hip1
                    have hop3 : d3.out_ports = dc.out_ports := by
                      rw [hd3]
                      exact hop2.trans hop1
                    have hg3 : d3.gates = d2.gates.filter (fun p => decide (p.1 ≠ id)) := by
                      rw [hd3]
                    have hni3 : OutNotIn d3 := by
                      intro p hp w hw
                      have hp2 : p ∈ d2.gates := by
                        rw [hg3] at hp
                        exact (List.mem_filter.mp hp).1
                      have hpc : p ∈ dc.gates := by
                        rw [hg2, hg1] at hp2
                        exact hp2
                      rw [is_in_port_congr dc d3 hip3 w]
                      exact hni p hpc w hw
                    have hino3 : d3.is_in_port o = false := by
                      rw [is_in_port_congr dc d3 hip3 o]
                      exact hino
                    have houto3 : d3.is_out_port o = false := by
                      rw [is_out_port_congr dc d3 hop3 o]
                      exact houto
                    obtain ⟨hip4, hop4, htr4, hni4⟩ :=
                      xformLoads_transfer dbg ((dc.get_wire_fanin_gate_ids i).headD 0) i o
                        (dc.get_wire_fanout_gate_ids o) d3 d4 lg1 hino3 houto3 hni3 hxf
                    rw [← ha]
                    refine ⟨hip4.trans hip3, hop4.trans hop3, ?_, hni4⟩
                    intro x g'' hx
                    obtain ⟨g3, hg3x, hr3⟩ := htr4 x g'' hx
                    have hkey : d3.getGate x = if x = id then none else d2.getGate x := by
                      unfold Dag.getGate
                      rw [hg3]
                      exact getGate_removeKey d2 id x
                    rw [hkey] at hg3x
                    by_cases hxe : x = id
                    · rw [if_pos hxe] at hg3x
                      exact Option.noConfusion hg3x
                    · rw [if_neg hxe] at hg3x
                      rw [getGate_gates_eq dc d2 (hg2.trans hg1) x] at hg3x
                      exact ⟨g3, hg3x,
                        HeadRel_trans dc d3 g3 g3 g'' hip3 hop3 (HeadRel_refl dc g3) hr3⟩
          · rw [if_neg hlen] at h; exact Except.noConfusion h

/-- Every remaining id appears in the fuel-driven Kahn traversal. -/
theorem topoAux_mem (edges : List Edge) :
    ∀ fuel rem (x : Nat), x ∈ rem → x ∈ topoAux edges fuel rem := by
  intro fuel
  induction fuel with
  | zero => intro rem x hx; exact hx
  | succ n ih =>
    intro rem x hx
    unfold topoAux
    cases hp : pickSource edges rem with
    | none => exact hx
    | some idp =>
      by_cases hxe : x = idp
      · rw [hxe]
        exact List.mem_cons_self _ _
      · exact List.mem_cons.mpr (Or.inr (ih (rem.erase idp) x
          ((List.mem_erase_of_ne hxe).mpr hx)))

theorem getGate_mem_keys (d : Dag) (x : Nat) (g : Gate) (h : d.getGate x = some g) :
    x ∈ d.gates.map Prod.fst :=
  List.mem_map.mpr ⟨(x, g), lookup_mem x g d.gates h, rfl⟩

/-- Every existing gate id is visited by the materialized traversal order. -/
theorem mem_topo_of_getGate (d : Dag) (x : Nat) (g : Gate) (h : d.getGate x = some g) :
    x ∈ d.get_topo_sorted_gate_id_list := by
  unfold Dag.get_topo_sorted_gate_id_list
  apply topoAux_mem
  exact List.mem_map.mpr ⟨(x, g), lookup_mem x g d.gates h, rfl⟩

/-- Through a successful traversal the ports never change, every surviving
gate descends from a starting gate by head-preserving renames, and the
no-output-names-an-input-port invariant is kept. -/
theorem applyLoop_transfer (dbg : Nat) (ids : List Nat) :
    ∀ dc total log d' total' log', OutNotIn dc →
      InvEliminator.applyLoop dbg dc ids total log = .ok (d', total', log') →
      d'.in_ports = dc.in_ports ∧ d'.out_ports = dc.out_ports ∧
      (∀ x g', d'.getGate x = some g' → ∃ g, dc.getGate x = some g ∧ HeadRel dc g g') ∧
      OutNotIn d' := by
  induction ids with
  | nil =>
    intro dc total log d' total' log' hni h
    simp only [InvEliminator.applyLoop] at h
    injection h with h2
    injection h2 with ha hb
    rw [← ha]
    exact ⟨rfl, rfl, fun x g' hx => ⟨g', hx, HeadRel_refl dc g'⟩, hni⟩
  | cons id ids ih =>
    intro dc total log d' total' log' hni h
    unfold InvEliminator.applyLoop at h
    by_cases htg : InvEliminator.is_target_gate dc id = true
    · rw [if_pos htg] at h
      cases hrx : InvEliminator.run_xform_inv_elimination dbg dc id with
      | error e => rw [hrx] at h; exact Except.noConfusion h
      | ok r =>
        rw [hrx] at h
        obtain ⟨dm, km, lgm⟩ := r
        dsimp only at h
        obtain ⟨hipm, hopm, htrm, hnim⟩ := run_xform_transfer dbg dc id dm km lgm hni hrx
        obtain ⟨hip', hop', htr', hni'⟩ := ih dm (total + km) (log ++ lgm) d' total' log' hnim h
        refine ⟨hip'.trans hipm, hop'.trans hopm, ?_, hni'⟩
        intro x g'' hx
        obtain ⟨gm, hgm, hrm⟩ := htr' x g'' hx
        obtain ⟨g, hg, hr⟩ := htrm x gm hgm
        exact ⟨g, hg, HeadRel_trans dc dm g gm g'' hipm hopm hr hrm⟩
    · rw [if_neg htg] at h
      exact ih dc total log d' total' log' hni h

/-- After a successful traversal, every surviving `inv1` gate whose id was
visited satisfies the port-skip condition in the final DAG. -/
theorem applyLoop_skipstable (dbg : Nat) (ids : List Nat) :
    ∀ dc total log d' total' log', OutNotIn dc →
      InvEliminator.applyLoop dbg dc ids total log = .ok (d', total', log') →
      ∀ x g', x ∈ ids → d'.getGate x = some g' → g'.gate_func = "inv1" →
        SkipStable d' g' := by
  induction ids with
  | nil =>
    intro dc total log d' total' log' _ _ x g' hx
    exact absurd hx (List.not_mem_nil x)
  | cons id ids ih =>
    intro dc total log d' total' log' hni h x g' hx hget hfunc
    unfold InvEliminator.applyLoop at h
    by_cases htg : InvEliminator.is_target_gate dc id = true
    · rw [if_pos htg] at h
      cases hrx : InvEliminator.run_xform_inv_elimination dbg dc id with
      | error e => rw [hrx] at h; exact Except.noConfusion h
      | ok r =>
        rw [hrx] at h
        obtain ⟨dm, km, lgm⟩ := r
        dsimp only at h
        obtain ⟨hipm, hopm, htrm, hnim⟩ := run_xform_transfer dbg dc id dm km lgm hni hrx
        rcases List.mem_cons.mp hx with rfl | hxids
        · obtain ⟨hipL, hopL, htrL, _⟩ :=
            applyLoop_transfer dbg ids dm (total + km) (log ++ lgm) d' total' log' hnim h
          obtain ⟨gm, hgm, hrmL⟩ := htrL x g' hget
          rcases run_xform_ok_cases dbg dc x dm km lgm hrx with ⟨hk0, hdm⟩ | ⟨_, _, hkeys⟩
          · rw [hk0] at hrx
            obtain ⟨hdmd, g0, hg0, hss⟩ := run_xform_ok_zero dbg dc x dm lgm hrx
            rw [hdmd] at hgm hrmL hipL hopL
            rw [hg0] at hgm
            injection hgm with he
            refine SkipStable_transfer dc d' g0 g' hipL hopL hss ?_
            rw [he]
            exact hrmL
          · have hxk : x ∈ dm.gates.map Prod.fst := getGate_mem_keys dm x gm hgm
            rw [hkeys] at hxk
            obtain ⟨p, hp, hpx⟩ := List.mem_map.mp hxk
            have hne := (List.mem_filter.mp hp).2
            simp only [decide_eq_true_eq] at hne
            exact absurd hpx hne
        · exact ih dm (total + km) (log ++ lgm) d' total' log' hnim h x g' hxids hget hfunc
    · rw [if_neg htg] at h
      rcases List.mem_cons.mp hx with rfl | hxids
      · obtain ⟨hipL, hopL, htrL, _⟩ :=
          applyLoop_transfer dbg ids dc total log d' total' log' hni h
        obtain ⟨g, hg, hr⟩ := htrL x g' hget
        have hfg : g.gate_func = "inv1" := by
          obtain ⟨hf, _, _⟩ := hr
          rw [← hf]
          exact hfunc
        refine absurd ?_ htg
        unfold InvEliminator.is_target_gate
        rw [hg]
        simp [hfg]
      · exact ih dc total log d' total' log' hni h x g' hxids hget hfunc

/-- A traversal in which every target gate satisfies the skip condition
returns the DAG unchanged and accumulates nothing. -/
theorem applyLoop_all_skip (dbg : Nat) (ids : List Nat) (d : Dag) :
    ∀ total log,
      (∀ x ∈ ids, InvEliminator.is_target_gate d x = true →
        ∃ g, d.getGate x = some g ∧ SkipStable d g) →
      InvEliminator.applyLoop dbg d ids total log = .ok (d, total, log) := by
  induction ids with
  | nil => intro total log _; rfl
  | cons id ids ih =>
    intro total log h
    unfold InvEliminator.applyLoop
    by_cases htg : InvEliminator.is_target_gate d id = true
    · rw [if_pos htg]
      obtain ⟨g, hg, i, irest, o, orest, hi, ho, hcond⟩ := h id (List.mem_cons_self _ _) htg
      rw [xform_skip dbg d id g i o irest orest hg hi ho hcond]
      dsimp only
      rw [Nat.add_zero, List.append_nil]
      exact ih total log (fun x hx => h x (List.mem_cons.mpr (Or.inr hx)))
    · rw [if_neg htg]
      exact ih total log (fun x hx => h x (List.mem_cons.mpr (Or.inr hx)))

/-! ## C5: the pass is idempotent -/

/-- C5: a second run of the pass on the output of a successful first run on
a well-formed netlist eliminates nothing: every surviving `inv1` gate is
port-skipped, the second traversal returns the DAG unchanged with count 0,
and the second `apply` returns the same DAG reporting 0 eliminations. -/
theorem C5_second_run (dbg dbg2 : Nat) (d : Dag) (rank : Nat → Nat) (d1 : Dag)
    (v : Option Nat) (log : List String)
    (hwf : wellFormedB d rank = true)
    (h : InvEliminator.apply dbg d = .ok (d1, v, log)) :
    (∀ x g, d1.getGate x = some g → g.gate_func = "inv1" → SkipStable d1 g) ∧
    InvEliminator.applyLoop dbg2 d1 d1.get_topo_sorted_gate_id_list 0 [] = .ok (d1, 0, []) ∧
    InvEliminator.apply dbg2 d1 = .ok (d1, none,
      if dbg2 ≥ 1 then [s!"DAG-Transform Summary: Total {0} inverter gates eliminated"]
      else []) := by
  have hni : OutNotIn d := by
    refine wf_out_not_in_port d ?_
    simp only [wellFormedB, Bool.and_eq_true] at hwf
    exact hwf.2
  unfold InvEliminator.apply at h
  cases hL : InvEliminator.applyLoop dbg d d.get_topo_sorted_gate_id_list 0 [] with
  | error e => rw [hL] at h; exact Except.noConfusion h
  | ok r =>
    rw [hL] at h
    obtain ⟨dL, tL, lgL⟩ := r
    dsimp only at h
    injection h with h2
    injection h2 with ha hb
    rw [ha] at hL
    have hskipall : ∀ x g, d1.getGate x = some g → g.gate_func = "inv1" → SkipStable d1 g := by
      intro x g hget hfunc
      have hmem : x ∈ d.get_topo_sorted_gate_id_list := by
        obtain ⟨hip, hop, htr, _⟩ :=
          applyLoop_transfer dbg d.get_topo_sorted_gate_id_list d 0 [] d1 tL lgL hni hL
        obtain ⟨g0, hg0, _⟩ := htr x g hget
        exact mem_topo_of_getGate d x g0 hg0
      exact applyLoop_skipstable dbg d.get_topo_sorted_gate_id_list d 0 [] d1 tL lgL hni hL
        x g hmem hget hfunc
    have hloop2 : InvEliminator.applyLoop dbg2 d1 d1.get_topo_sorted_gate_id_list 0 []
        = .ok (d1, 0, []) := by
      refine applyLoop_all_skip dbg2 d1.get_topo_sorted_gate_id_list d1 0 [] ?_
      intro x _ htg
      unfold InvEliminator.is_target_gate at htg
      cases hg : d1.getGate x with
      | none => rw [hg] at htg; exact Bool.noConfusion htg
      | some g =>
        rw [hg] at htg
        exact ⟨g, rfl, hskipall x g hg (of_decide_eq_true htg)⟩
    refine ⟨hskipall, hloop2, ?_⟩
    unfold InvEliminator.apply
    rw [hloop2]
    dsimp only
    rw [List.nil_append]

/-- The DAG produced by the first run of the pass on `oneInvDag`. -/
def elimOneInvDag : Dag :=
  { gates := [(0, ⟨["x"], ["a"], "buf1", []⟩),
              (2, ⟨["a"], ["y"], "buf1", ["a"]⟩)],
    edges := [⟨0, 2, "a"⟩], in_ports := ["x"], out_ports := ["y"] }

/-- C5 witness: `oneInvDag` is well formed (ranked by gate id), its first
run produces `elimOneInvDag`, and the second traversal returns that DAG
unchanged with count 0. -/
theorem C5_second_run_witness :
    InvEliminator.applyLoop 3 elimOneInvDag elimOneInvDag.get_topo_sorted_gate_id_list 0 []
      = .ok (elimOneInvDag, 0, []) :=
  (C5_second_run 0 3 oneInvDag (fun n => n) elimOneInvDag none [] (by decide) (by rfl)).2.1
